import Mathlib

/-!
Shallow embedding of the patchboard task tool
(src/.patchboard/tooling/patchboard.py): task records, lock leases,
the claim/renew/release/archive operations and the validation engine.
Python dicts keyed by task id are embedded as association lists,
datetimes as integer timestamps (whole seconds), and file writes as
functional updates of a state record.  Each operation returns the
resulting state paired with an optional error, mirroring the script's
"print ERROR and exit 1" convention; an error is produced exactly where
the script returns 1 before further writes.
-/

namespace Patchboard

/-- First-match lookup in an association list: the embedding of Python
dict access `d.get(k)` / `k in d`. -/
def alookup {α : Type} (k : String) : List (String × α) → Option α
  | [] => none
  | p :: rest => if p.1 = k then some p.2 else alookup k rest

/-- Overwrite-or-append for an association list: the embedding of Python
dict assignment `d[k] = v` (and of an overwriting whole-file write keyed
by task id). -/
def dict_set {α : Type} (d : List (String × α)) (k : String) (v : α) :
    List (String × α) :=
  if (alookup k d).isSome then d.map (fun p => if p.1 = k then (k, v) else p)
  else d ++ [(k, v)]

/-- Remove every entry with the given key: the embedding of deleting the
per-id file (`lock.path.unlink()`, `shutil.move` away). -/
def dict_remove {α : Type} (d : List (String × α)) (k : String) :
    List (String × α) :=
  d.filter (fun p => p.1 ≠ k)

/-- The embedding of Python `d1.update(d2)` (as used by
`discover_all_tasks`): values of keys already in `d1` are replaced in
place by the `d2` value, and keys new in `d2` are appended in order. -/
def dict_update {α : Type} (d1 d2 : List (String × α)) :
    List (String × α) :=
  d1.map (fun p =>
      match alookup p.1 d2 with
      | some v => (p.1, v)
      | none => p)
    ++ d2.filter (fun p => (alookup p.1 d1).isNone)

/-- Return the first `some` produced over a list, embedding loops of the
shape `for x in xs: r = f(x); if r: return r`. -/
def firstSome {α β : Type} (f : α → Option β) : List α → Option β
  | [] => none
  | a :: rest =>
    match f a with
    | some b => some b
    | none => firstSome f rest

/-- The `ALLOWED_STATUSES` set of the script. -/
def ALLOWED_STATUSES : List String :=
  ["todo", "ready", "in_progress", "blocked", "review", "done"]

/-- A task record as the script reads it through the `Task` dataclass
property accessors: each field is the normalized value the corresponding
`@property` returns (defaults as in `frontmatter.get`).  `updated_at`
records the timestamp date the script writes back on claim/release. -/
structure Task where
  status : String := ""
  title : String := ""
  depends_on : List String := []
  owner : Option String := none
  task_type : String := "task"
  parent_epic : Option String := none
  children : List String := []
  updated_at : Option Int := none
deriving DecidableEq

/-- A lock lease record (`Lock` dataclass / `*.lock.json`). -/
structure Lock where
  claimed_by : String
  claimed_at : Int := 0
  lease_seconds : Int := 0
  lease_expires_at : Int
  last_renewed_at : Int := 0
  branch : Option String := none
deriving DecidableEq

/-- The persisted state an invocation reads and writes: active task
records, archived task records, and lock lease records, each keyed by
task id. -/
structure PBState where
  tasks : List (String × Task) := []
  archived : List (String × Task) := []
  locks : List (String × Lock) := []
deriving DecidableEq

/-- `Lock.is_expired`: a lease is expired iff it expires at or before
the current time (`lease_expires_at <= now_utc()`). -/
def Lock.is_expired (lock : Lock) (now : Int) : Bool :=
  lock.lease_expires_at ≤ now

/-- `is_lock_unexpired` of the script. -/
def is_lock_unexpired (lock : Lock) (now : Int) : Bool :=
  ! lock.is_expired now

/-- `discover_all_tasks`: the merged active+archived mapping, built by
starting from the active mapping and applying Python `dict.update` with
the archived mapping. -/
def discover_all_tasks (tasks archived : List (String × Task)) :
    List (String × Task) :=
  dict_update tasks archived

/-- The distinct failures of `claim`, in the script's message shapes. -/
inductive ClaimErr
  | unknownTask (id : String)
  | taskDone (id : String)
  | depUnmet (id dep depStatus : String)
  | lockedBySelf (id : String)
  | lockedByOther (id holder : String) (expiry : Int)
  | expiredNoSteal (id : String)
deriving DecidableEq

/-- The dependency loop of `claim`: the first dependency that resolves
in the active set with a status other than done, together with that
status (`dep_task = tasks.get(dep); if dep_task and dep_task.status !=
"done"`). -/
def firstUnmetDep (tasks : List (String × Task)) :
    List String → Option (String × String)
  | [] => none
  | dep :: rest =>
    match alookup dep tasks with
    | some dep_task =>
      if dep_task.status ≠ "done" then some (dep, dep_task.status)
      else firstUnmetDep tasks rest
    | none => firstUnmetDep tasks rest

/-- The lease record a successful `claim` writes (the script's
`lock_data` dict): owned by the actor, expiring `lease_seconds` from
now. -/
def lock_data (now : Int) (branch : Option String) (actor : String)
    (lease_seconds : Int) : Lock :=
  { claimed_by := actor, claimed_at := now, lease_seconds := lease_seconds,
    lease_expires_at := now + lease_seconds, last_renewed_at := now,
    branch := branch }

/-- The task record a successful `claim` writes back (`task.with_updates
(status="in_progress", owner=actor, updated_at=...)`). -/
def claim_updated (task : Task) (actor : String) (now : Int) : Task :=
  { task with status := "in_progress", owner := some actor,
              updated_at := some now }

/-- The two writes of a successful `claim`: the new lock lease file and
the rewritten task frontmatter, produced together. -/
def claimWrite (now : Int) (branch : Option String) (st : PBState)
    (task_id actor : String) (lease_seconds : Int) (task : Task) :
    PBState × Option ClaimErr :=
  ({ st with locks := dict_set st.locks task_id
               (lock_data now branch actor lease_seconds),
             tasks := dict_set st.tasks task_id
               (claim_updated task actor now) }, none)

/-- The `claim` operation.  All checks run before any write, in the
script's order: unknown task, task done, unmet dependency, unexpired
lock (by self or other), expired lock with stealing disabled; otherwise
both writes happen. -/
def claim (now : Int) (branch : Option String) (st : PBState)
    (task_id actor : String) (lease_seconds : Int)
    (allow_steal_expired : Bool) : PBState × Option ClaimErr :=
  match alookup task_id st.tasks with
  | none => (st, some (.unknownTask task_id))
  | some task =>
    if task.status = "done" then (st, some (.taskDone task_id))
    else
      match firstUnmetDep st.tasks task.depends_on with
      | some (dep, depSt) => (st, some (.depUnmet task_id dep depSt))
      | none =>
        match alookup task_id st.locks with
        | some existing =>
          if is_lock_unexpired existing now then
            if existing.claimed_by = actor then
              (st, some (.lockedBySelf task_id))
            else
              (st, some (.lockedByOther task_id existing.claimed_by
                existing.lease_expires_at))
          else if allow_steal_expired then
            claimWrite now branch st task_id actor lease_seconds task
          else (st, some (.expiredNoSteal task_id))
        | none => claimWrite now branch st task_id actor lease_seconds task

/-- The distinct failures of `renew`. -/
inductive RenewErr
  | noLock (id : String)
  | notOwner (id holder : String)
  | expired (id : String)
deriving DecidableEq

/-- The `renew` operation: missing lock, wrong owner and expiry are
checked in order before the single lock rewrite. -/
def renew (now : Int) (st : PBState) (task_id actor : String)
    (lease_seconds : Int) : PBState × Option RenewErr :=
  match alookup task_id st.locks with
  | none => (st, some (.noLock task_id))
  | some lock =>
    if lock.claimed_by ≠ actor then (st, some (.notOwner task_id lock.claimed_by))
    else if lock.is_expired now then (st, some (.expired task_id))
    else
      let lock2 : Lock :=
        { lock with lease_seconds := lease_seconds,
                    lease_expires_at := now + lease_seconds,
                    last_renewed_at := now }
      ({ st with locks := dict_set st.locks task_id lock2 }, none)

/-- The distinct failures of `release`. -/
inductive ReleaseErr
  | noLock (id : String)
  | notOwner (id holder : String)
  | invalidStatus (s : String)
deriving DecidableEq

/-- The `release` operation.  The lock file is deleted right after the
ownership check; only then, if the task exists and a (truthy) new status
was given, is the status validated — an invalid status errors out with
the lock already gone and the task untouched. -/
def release (now : Int) (st : PBState) (task_id actor : String)
    (force : Bool) (new_status : Option String) :
    PBState × Option ReleaseErr :=
  match alookup task_id st.locks with
  | none => (st, some (.noLock task_id))
  | some lock =>
    if lock.claimed_by ≠ actor ∧ ¬ force then
      (st, some (.notOwner task_id lock.claimed_by))
    else
      let st1 : PBState := { st with locks := dict_remove st.locks task_id }
      match alookup task_id st1.tasks with
      | none => (st1, none)
      | some task =>
        let touched : Task := { task with updated_at := some now }
        match new_status with
        | some s =>
          if s = "" then
            ({ st1 with tasks := dict_set st1.tasks task_id touched }, none)
          else if s ∈ ALLOWED_STATUSES then
            let restatused : Task := { touched with status := s }
            ({ st1 with tasks := dict_set st1.tasks task_id restatused }, none)
          else (st1, some (.invalidStatus s))
        | none =>
          ({ st1 with tasks := dict_set st1.tasks task_id touched }, none)

/-- The distinct failures of `archive_task`. -/
inductive ArchiveErr
  | alreadyArchived (id : String)
  | unknownTask (id : String)
  | activeLock (id holder : String) (expiry : Int)
  | destExists (id : String)
deriving DecidableEq

/-- The state change of a successful archive: the task folder moved to
the archive partition and any leftover lock file removed. -/
def archiveMove (st : PBState) (task_id : String) (task : Task) : PBState :=
  { st with tasks := dict_remove st.tasks task_id,
            archived := dict_set st.archived task_id task,
            locks := dict_remove st.locks task_id }

/-- The `archive_task` operation: unknown/already-archived checks, the
active-lock guard, the destination-exists check, then the folder move
followed by removal of any leftover (expired) lock file. -/
def archive_task (now : Int) (st : PBState) (task_id : String) :
    PBState × Option ArchiveErr :=
  match alookup task_id st.tasks with
  | none =>
    if (alookup task_id st.archived).isSome then
      (st, some (.alreadyArchived task_id))
    else (st, some (.unknownTask task_id))
  | some task =>
    match alookup task_id st.locks with
    | some lock =>
      if ¬ lock.is_expired now then
        (st, some (.activeLock task_id lock.claimed_by lock.lease_expires_at))
      else if (alookup task_id st.archived).isSome then
        (st, some (.destExists task_id))
      else (archiveMove st task_id task, none)
    | none =>
      if (alookup task_id st.archived).isSome then
        (st, some (.destExists task_id))
      else (archiveMove st task_id task, none)

/-! ## Association-list lemmas -/

theorem alookup_map_overlay {α : Type} (d1 d2 : List (String × α)) (k : String) :
    alookup k (d1.map (fun p =>
        match alookup p.1 d2 with
        | some v => (p.1, v)
        | none => p)) =
      match alookup k d1, alookup k d2 with
      | some _, some v2 => some v2
      | some v1, none => some v1
      | none, _ => none := by
  induction d1 with
  | nil => cases alookup k d2 <;> simp [alookup]
  | cons p rest ih =>
    by_cases h : p.1 = k
    · subst h
      cases h2 : alookup p.1 d2 <;> simp [alookup, h2]
    · cases h2 : alookup p.1 d2 <;> simp [alookup, h, h2, ih]

theorem alookup_filter_of_none {α : Type} (d1 d2 : List (String × α))
    (k : String) (h : alookup k d1 = none) :
    alookup k (d2.filter (fun p => (alookup p.1 d1).isNone)) = alookup k d2 := by
  induction d2 with
  | nil => rfl
  | cons p rest ih =>
    by_cases hk : p.1 = k
    · subst hk
      simp [alookup, h, List.filter]
    · cases hmem : (alookup p.1 d1).isNone <;>
        simp [alookup, hk, List.filter, hmem, ih]

theorem alookup_filter_of_some {α : Type} (d1 d2 : List (String × α))
    (k : String) (h : (alookup k d1).isSome) :
    alookup k (d2.filter (fun p => (alookup p.1 d1).isNone)) = none := by
  induction d2 with
  | nil => rfl
  | cons p rest ih =>
    by_cases hk : p.1 = k
    · subst hk
      have : (alookup p.1 d1).isNone = false := by
        cases hx : alookup p.1 d1 <;> simp_all
      simp [List.filter, this, ih]
    · cases hmem : (alookup p.1 d1).isNone <;>
        simp [alookup, hk, List.filter, hmem, ih]

theorem alookup_append {α : Type} (l1 l2 : List (String × α)) (k : String) :
    alookup k (l1 ++ l2) =
      match alookup k l1 with
      | some v => some v
      | none => alookup k l2 := by
  induction l1 with
  | nil => simp [alookup]
  | cons p rest ih =>
    by_cases h : p.1 = k <;> simp [alookup, h, ih]

theorem alookup_dict_update {α : Type} (d1 d2 : List (String × α)) (k : String) :
    alookup k (dict_update d1 d2) =
      match alookup k d2 with
      | some v => some v
      | none => alookup k d1 := by
  unfold dict_update
  rw [alookup_append, alookup_map_overlay]
  cases h1 : alookup k d1 with
  | none =>
    cases h2 : alookup k d2 with
    | none => simp [alookup_filter_of_none _ _ _ h1, h2]
    | some v2 => simp [alookup_filter_of_none _ _ _ h1, h2]
  | some v1 =>
    have hs : (alookup k d1).isSome := by simp [h1]
    cases h2 : alookup k d2 <;> simp [alookup_filter_of_some _ _ _ hs]

theorem alookup_dict_set_self {α : Type} (d : List (String × α))
    (k : String) (v : α) : alookup k (dict_set d k v) = some v := by
  unfold dict_set
  by_cases h : (alookup k d).isSome
  · simp only [h, if_true]
    induction d with
    | nil => simp [alookup] at h
    | cons p rest ih =>
      by_cases hk : p.1 = k
      · simp [alookup, hk]
      · have : (alookup k rest).isSome := by simpa [alookup, hk] using h
        simp [alookup, hk, ih this]
  · rw [if_neg h, alookup_append]
    have : alookup k d = none := by
      cases hx : alookup k d <;> simp_all
    simp [this, alookup]

theorem alookup_dict_remove_self {α : Type} (d : List (String × α))
    (k : String) : alookup k (dict_remove d k) = none := by
  unfold dict_remove
  induction d with
  | nil => rfl
  | cons p rest ih =>
    rw [List.filter_cons]
    by_cases hk : p.1 = k
    · simpa [hk] using ih
    · simpa [hk, alookup] using ih

theorem is_lock_unexpired_iff (lock : Lock) (now : Int) :
    is_lock_unexpired lock now = true ↔ now < lock.lease_expires_at := by
  simp [is_lock_unexpired, Lock.is_expired]

/-! ## Claim C2: claim error precedence -/

/-- C2: a `claim(id, actor, leaseSeconds, allowStealExpired)` call fails
with distinct errors checked in this order — unknown task id; task
status done; first non-archived dependency whose status is not done; an
unexpired lease held by another actor (reporting holder and expiry) or
by the same actor (directing to renew) — each failure leaving the state
unchanged (no lease created, task record untouched), and claim never
returns success while an unexpired lease exists. -/
theorem claim_error_precedence (now : Int) (br : Option String)
    (st : PBState) (id actor : String) (ls : Int) (steal : Bool) :
    (alookup id st.tasks = none →
      claim now br st id actor ls steal = (st, some (.unknownTask id)))
  ∧ (∀ t, alookup id st.tasks = some t → t.status = "done" →
      claim now br st id actor ls steal = (st, some (.taskDone id)))
  ∧ (∀ t dep depSt, alookup id st.tasks = some t → t.status ≠ "done" →
      firstUnmetDep st.tasks t.depends_on = some (dep, depSt) →
      claim now br st id actor ls steal = (st, some (.depUnmet id dep depSt)))
  ∧ (∀ t lock, alookup id st.tasks = some t → t.status ≠ "done" →
      firstUnmetDep st.tasks t.depends_on = none →
      alookup id st.locks = some lock → now < lock.lease_expires_at →
      lock.claimed_by = actor →
      claim now br st id actor ls steal = (st, some (.lockedBySelf id)))
  ∧ (∀ t lock, alookup id st.tasks = some t → t.status ≠ "done" →
      firstUnmetDep st.tasks t.depends_on = none →
      alookup id st.locks = some lock → now < lock.lease_expires_at →
      lock.claimed_by ≠ actor →
      claim now br st id actor ls steal =
        (st, some (.lockedByOther id lock.claimed_by lock.lease_expires_at)))
  ∧ (∀ lock, alookup id st.locks = some lock → now < lock.lease_expires_at →
      (claim now br st id actor ls steal).2 ≠ none) := by
  refine ⟨?_, ?_, ?_, ?_, ?_, ?_⟩
  · intro h
    simp [claim, h]
  · intro t ht hdone
    simp [claim, ht, hdone]
  · intro t dep depSt ht hdone hdep
    simp [claim, ht, hdone, hdep]
  · intro t lock ht hdone hdep hl hun hby
    have hu : is_lock_unexpired lock now = true := (is_lock_unexpired_iff _ _).mpr hun
    simp [claim, ht, hdone, hdep, hl, hu, hby]
  · intro t lock ht hdone hdep hl hun hby
    have hu : is_lock_unexpired lock now = true := (is_lock_unexpired_iff _ _).mpr hun
    simp [claim, ht, hdone, hdep, hl, hu, hby]
  · intro lock hl hun
    have hu : is_lock_unexpired lock now = true := (is_lock_unexpired_iff _ _).mpr hun
    unfold claim
    cases ht : alookup id st.tasks with
    | none => simp
    | some t =>
      by_cases hdone : t.status = "done"
      · simp [hdone]
      · cases hdep : firstUnmetDep st.tasks t.depends_on with
        | some p => simp [hdone, hdep]
        | none =>
          by_cases hby : lock.claimed_by = actor <;>
            simp [hdone, hdep, hl, hu, hby]

/-- A state with one ready task locked by another actor until time 50. -/
def c2Lock : Lock := { claimed_by := "bob", lease_expires_at := 50 }

/-- A one-task state whose task is ready and locked by `c2Lock`. -/
def c2St : PBState :=
  { tasks := [("T", { status := "ready" })], locks := [("T", c2Lock)] }

/-- C2 witness: unknown-task and locked-by-other failures at concrete
states, both leaving the state unchanged. -/
theorem claim_error_precedence_witness :
    claim 0 none {} "X" "alice" 10 true = ({}, some (.unknownTask "X"))
  ∧ claim 0 none c2St "T" "alice" 10 true
      = (c2St, some (.lockedByOther "T" "bob" 50)) := by
  constructor
  · exact (claim_error_precedence 0 none {} "X" "alice" 10 true).1 (by decide)
  · exact (claim_error_precedence 0 none c2St "T" "alice" 10 true).2.2.2.2.1
      { status := "ready" } c2Lock (by decide) (by decide) (by decide)
      (by decide) (by decide) (by decide)

/-! ## Claim C3: expired leases — renew refuses, claim steals -/

/-- C3: for a lease expired at the current time (`lease_expires_at ≤
now`), renew by any actor fails and leaves the state unchanged, while
claim on the task (its other preconditions met) succeeds when stealing
is allowed — producing a fresh lease owned by the claimant — and fails
with the steal-disallowed error when it is not. -/
theorem expired_lease_renew_fails_claim_steals (now : Int)
    (br : Option String) (st : PBState) (id : String) (lock : Lock)
    (hl : alookup id st.locks = some lock)
    (hexp : lock.lease_expires_at ≤ now) :
    (∀ actor2 ls, (renew now st id actor2 ls).1 = st
        ∧ (renew now st id actor2 ls).2 ≠ none)
  ∧ (∀ t actor ls, alookup id st.tasks = some t → t.status ≠ "done" →
      firstUnmetDep st.tasks t.depends_on = none →
      ((claim now br st id actor ls true).2 = none ∧
        alookup id (claim now br st id actor ls true).1.locks =
          some (lock_data now br actor ls))
      ∧ claim now br st id actor ls false = (st, some (.expiredNoSteal id))) := by
  have hex : lock.is_expired now = true := by
    simp [Lock.is_expired, hexp]
  have hun : is_lock_unexpired lock now = false := by
    simp [is_lock_unexpired, hex]
  constructor
  · intro actor2 ls
    by_cases hby : lock.claimed_by = actor2
    · simp [renew, hl, hby, hex]
    · simp [renew, hl, hby]
  · intro t actor ls ht hdone hdep
    refine ⟨⟨?_, ?_⟩, ?_⟩
    · simp [claim, ht, hdone, hdep, hl, hun, claimWrite]
    · simp [claim, ht, hdone, hdep, hl, hun, claimWrite,
        alookup_dict_set_self]
    · simp [claim, ht, hdone, hdep, hl, hun]

/-- The spec scenario state: task X is ready and holds a lease by bob
that expires at time 100. -/
def c3St : PBState :=
  { tasks := [("X", { status := "ready" })],
    locks := [("X", { claimed_by := "bob", lease_expires_at := 100 })] }

/-- C3 witness: one second past expiry, bob's renew fails, alice's claim
with stealing succeeds and owns the new lease, and without stealing the
claim fails. -/
theorem expired_lease_renew_fails_claim_steals_witness :
    ((renew 101 c3St "X" "bob" 3600).1 = c3St
      ∧ (renew 101 c3St "X" "bob" 3600).2 ≠ none)
  ∧ (claim 101 none c3St "X" "alice" 3600 true).2 = none
  ∧ alookup "X" (claim 101 none c3St "X" "alice" 3600 true).1.locks
      = some (lock_data 101 none "alice" 3600)
  ∧ claim 101 none c3St "X" "alice" 3600 false
      = (c3St, some (.expiredNoSteal "X")) := by
  have H := expired_lease_renew_fails_claim_steals 101 none c3St "X"
    { claimed_by := "bob", lease_expires_at := 100 } (by decide) (by decide)
  have H2 := H.2 { status := "ready" } "alice" 3600 (by decide) (by decide)
    (by decide)
  exact ⟨H.1 "bob" 3600, H2.1.1, H2.1.2, H2.2⟩

/-! ## Claim C4: successful claim writes lease and task together -/

/-- C4: every successful claim leaves, in the one resulting state, a
lease for the task with `claimed_by = actor` and `lease_expires_at =
now + leaseSeconds`, and the task record rewritten to status
in_progress with owner = actor — both writes produced together by the
single operation. -/
theorem claim_success_both_writes (now : Int) (br : Option String)
    (st : PBState) (id actor : String) (ls : Int) (steal : Bool)
    (st2 : PBState) (h : claim now br st id actor ls steal = (st2, none)) :
    (lock_data now br actor ls).claimed_by = actor
  ∧ (lock_data now br actor ls).lease_expires_at = now + ls
  ∧ alookup id st2.locks = some (lock_data now br actor ls)
  ∧ ∃ t, alookup id st.tasks = some t
      ∧ alookup id st2.tasks = some (claim_updated t actor now)
      ∧ (claim_updated t actor now).status = "in_progress"
      ∧ (claim_updated t actor now).owner = some actor := by
  refine ⟨rfl, rfl, ?_⟩
  cases ht : alookup id st.tasks with
  | none => simp only [claim, ht] at h; simp at h
  | some t =>
    simp only [claim, ht] at h
    by_cases hdone : t.status = "done"
    · simp [hdone] at h
    · rw [if_neg hdone] at h
      cases hdep : firstUnmetDep st.tasks t.depends_on with
      | some p => obtain ⟨dep, depSt⟩ := p; simp only [hdep] at h; simp at h
      | none =>
        simp only [hdep] at h
        have hw : claimWrite now br st id actor ls t = (st2, none) →
            alookup id st2.locks = some (lock_data now br actor ls)
            ∧ ∃ u, (some t : Option Task) = some u
                ∧ alookup id st2.tasks = some (claim_updated u actor now)
                ∧ (claim_updated u actor now).status = "in_progress"
                ∧ (claim_updated u actor now).owner = some actor := by
          intro hw
          have hst2 : (claimWrite now br st id actor ls t).1 = st2 := by
            rw [hw]
          rw [← hst2]
          unfold claimWrite
          exact ⟨alookup_dict_set_self _ _ _,
            ⟨t, rfl, alookup_dict_set_self _ _ _, rfl, rfl⟩⟩
        cases hlk : alookup id st.locks with
        | none => simp only [hlk] at h; exact hw h
        | some lock =>
          simp only [hlk] at h
          by_cases hu : is_lock_unexpired lock now
          · by_cases hby : lock.claimed_by = actor <;>
              simp [hu, hby] at h
          · rw [if_neg (by simpa using hu)] at h
            by_cases hsteal : steal
            · rw [if_pos hsteal] at h; exact hw h
            · simp [hsteal] at h

/-- A one-task unlocked ready state. -/
def c4St : PBState := { tasks := [("T", { status := "ready" })] }

/-- C4 witness: a concrete successful claim writes both the lease and
the task update. -/
theorem claim_success_both_writes_witness :
    (lock_data 5 none "alice" 10).claimed_by = "alice"
  ∧ (lock_data 5 none "alice" 10).lease_expires_at = 5 + 10
  ∧ alookup "T" (claim 5 none c4St "T" "alice" 10 true).1.locks
      = some (lock_data 5 none "alice" 10)
  ∧ ∃ t, alookup "T" c4St.tasks = some t
      ∧ alookup "T" (claim 5 none c4St "T" "alice" 10 true).1.tasks
          = some (claim_updated t "alice" 5)
      ∧ (claim_updated t "alice" 5).status = "in_progress"
      ∧ (claim_updated t "alice" 5).owner = some "alice" :=
  claim_success_both_writes 5 none c4St "T" "alice" 10 true
    (claim 5 none c4St "T" "alice" 10 true).1 (by decide)

/-! ## Claim C6: release with an invalid status (corrected) -/

/-- C6 (amended): when a lease exists, the caller is authorized, the
task record exists, and the given new status is invalid, release fails
with the invalid-status error and does not modify the task record — but
the lease has already been deleted by that point (the lock file is
removed before the status is validated), so the persisted state is not
unchanged. -/
theorem release_invalid_status_deletes_lock (now : Int) (st : PBState)
    (id actor s : String) (force : Bool) (lock : Lock) (t : Task)
    (hl : alookup id st.locks = some lock)
    (hauth : lock.claimed_by = actor ∨ force = true)
    (ht : alookup id st.tasks = some t)
    (hne : s ≠ "") (hbad : s ∉ ALLOWED_STATUSES) :
    release now st id actor force (some s)
      = ({ st with locks := dict_remove st.locks id },
         some (.invalidStatus s))
  ∧ alookup id (release now st id actor force (some s)).1.locks = none
  ∧ (release now st id actor force (some s)).1.tasks = st.tasks := by
  have hok : ¬ (lock.claimed_by ≠ actor ∧ ¬ force) := by
    rcases hauth with h | h
    · simp [h]
    · simp [h]
  have heq : release now st id actor force (some s)
      = ({ st with locks := dict_remove st.locks id },
         some (.invalidStatus s)) := by
    simp only [release, hl]
    rw [if_neg hok]
    simp [ht, hne, hbad]
  refine ⟨heq, ?_, ?_⟩
  · rw [heq]
    exact alookup_dict_remove_self _ _
  · rw [heq]

/-- A state with task T in progress, locked by alice. -/
def relSt : PBState :=
  { tasks := [("T", { status := "in_progress", owner := some "alice" })],
    locks := [("T", { claimed_by := "alice", lease_expires_at := 100 })] }

/-- C6 counterexample: at a concrete state with an authorized caller and
an invalid new status, release reports the invalid-status error, yet the
lease that existed beforehand is gone afterwards — refuting the claim
that the persisted state (in particular the lease) is left unchanged. -/
theorem release_invalid_status_counterexample :
    (release 0 relSt "T" "alice" false (some "bogus")).2
      = some (.invalidStatus "bogus")
  ∧ (alookup "T" relSt.locks).isSome
  ∧ alookup "T" (release 0 relSt "T" "alice" false (some "bogus")).1.locks
      = none := by decide

/-- C6 witness: the amended statement at the same concrete state. -/
theorem release_invalid_status_deletes_lock_witness :
    release 0 relSt "T" "alice" false (some "bogus")
      = ({ relSt with locks := dict_remove relSt.locks "T" },
         some (.invalidStatus "bogus"))
  ∧ alookup "T" (release 0 relSt "T" "alice" false (some "bogus")).1.locks
      = none
  ∧ (release 0 relSt "T" "alice" false (some "bogus")).1.tasks
      = relSt.tasks :=
  release_invalid_status_deletes_lock 0 relSt "T" "alice" "bogus" false
    { claimed_by := "alice", lease_expires_at := 100 }
    { status := "in_progress", owner := some "alice" }
    (by decide) (by decide) (by decide) (by decide) (by decide)

/-! ## Claim C10: archive refuses tasks under an unexpired lease -/

/-- C10: archiving an active task that holds an unexpired lease fails,
reporting the holder and expiry, and moves nothing; a successful archive
implies any existing lease was expired, and leaves the task out of the
active set, present in the archive, with no lease record remaining. -/
theorem archive_active_lock_guard (now : Int) (st : PBState) (id : String) :
    (∀ t lock, alookup id st.tasks = some t → alookup id st.locks = some lock →
      now < lock.lease_expires_at →
      archive_task now st id =
        (st, some (.activeLock id lock.claimed_by lock.lease_expires_at)))
  ∧ (∀ st2, archive_task now st id = (st2, none) →
      (∀ lock, alookup id st.locks = some lock → lock.lease_expires_at ≤ now)
      ∧ alookup id st2.tasks = none
      ∧ (alookup id st2.archived).isSome
      ∧ alookup id st2.locks = none) := by
  constructor
  · intro t lock ht hl hun
    have hex : lock.is_expired now = false := by
      simp [Lock.is_expired]
      omega
    simp [archive_task, ht, hl, hex]
  · intro st2 h
    cases ht : alookup id st.tasks with
    | none =>
      simp only [archive_task, ht] at h
      by_cases ha : (alookup id st.archived).isSome
      · rw [if_pos ha] at h; simp at h
      · rw [if_neg ha] at h; simp at h
    | some t =>
      simp only [archive_task, ht] at h
      have hmove : ((archiveMove st id t, (none : Option ArchiveErr))
            = (st2, none)) → alookup id st2.tasks = none
          ∧ (alookup id st2.archived).isSome ∧ alookup id st2.locks = none := by
        intro h2
        have hst2 := congrArg Prod.fst h2
        simp only at hst2
        rw [← hst2]
        unfold archiveMove
        refine ⟨alookup_dict_remove_self _ _, ?_, alookup_dict_remove_self _ _⟩
        simp [alookup_dict_set_self]
      cases hl : alookup id st.locks with
      | none =>
        simp only [hl] at h
        by_cases ha : (alookup id st.archived).isSome
        · rw [if_pos ha] at h; simp at h
        · rw [if_neg ha] at h
          exact ⟨by simp, hmove h⟩
      | some lock =>
        simp only [hl] at h
        by_cases hex : lock.is_expired now
        · rw [if_neg (by simp [hex])] at h
          by_cases ha : (alookup id st.archived).isSome
          · rw [if_pos ha] at h; simp at h
          · rw [if_neg ha] at h
            refine ⟨?_, hmove h⟩
            intro lock2 hlk
            have hlk2 : lock2 = lock := by
              injection hlk with he
              exact he.symm
            rw [hlk2]
            simpa [Lock.is_expired] using hex
        · rw [if_pos (by simpa using hex)] at h
          simp at h

/-- A done task still holding bob's lease that expires at time 10. -/
def c10St : PBState :=
  { tasks := [("T", { status := "done" })],
    locks := [("T", { claimed_by := "bob", lease_expires_at := 10 })] }

/-- C10 witness: at time 5 the lease is unexpired and archiving fails
with holder and expiry; at time 20 it is expired, archiving succeeds,
and the task is moved with the leftover lease removed. -/
theorem archive_active_lock_guard_witness :
    archive_task 5 c10St "T" = (c10St, some (.activeLock "T" "bob" 10))
  ∧ alookup "T" (archive_task 20 c10St "T").1.tasks = none
  ∧ (alookup "T" (archive_task 20 c10St "T").1.archived).isSome
  ∧ alookup "T" (archive_task 20 c10St "T").1.locks = none := by
  constructor
  · exact (archive_active_lock_guard 5 c10St "T").1
      { status := "done" } { claimed_by := "bob", lease_expires_at := 10 }
      (by decide) (by decide) (by decide)
  · have H := (archive_active_lock_guard 20 c10St "T").2
      (archive_task 20 c10St "T").1 (by decide)
    exact ⟨H.2.1, H.2.2.1, H.2.2.2⟩

/-! ## Claim C5: merged discovery precedence (corrected) -/

/-- C5 (amended): in the merged active+archived discovery the archived
entry wins on an id collision — `dict.update` replaces values of keys
already present — so the merged mapping returns the archived entry for
an id in both sets, and the unique entry for an id in one set. -/
theorem discover_all_tasks_archived_wins (tasks archived :
    List (String × Task)) (id : String) :
    (∀ v, alookup id archived = some v →
      alookup id (discover_all_tasks tasks archived) = some v)
  ∧ (alookup id archived = none →
      alookup id (discover_all_tasks tasks archived) = alookup id tasks) := by
  have h := alookup_dict_update tasks archived id
  unfold discover_all_tasks
  constructor
  · intro v hv
    simp [h, hv]
  · intro hv
    simp [h, hv]

/-- The active record of the C5 collision: a todo task. -/
def c5Active : Task := { status := "todo" }

/-- The archived record of the C5 collision: a done task. -/
def c5Archived : Task := { status := "done" }

/-- The active mapping of the C5 collision. -/
def c5ActiveMap : List (String × Task) := [("A", c5Active)]

/-- An active mapping with a different id, no collision. -/
def c5ActiveMapB : List (String × Task) := [("B", c5Active)]

/-- The archived mapping of the C5 collision. -/
def c5ArchivedMap : List (String × Task) := [("A", c5Archived)]

/-- C5 witness: at the collision instance, the merged mapping returns
the archived entry; with no archived entry for an id, the active one. -/
theorem discover_all_tasks_archived_wins_witness :
    alookup "A" (discover_all_tasks c5ActiveMap c5ArchivedMap)
      = some c5Archived
  ∧ alookup "B" (discover_all_tasks c5ActiveMapB c5ArchivedMap)
      = alookup "B" c5ActiveMapB := by
  have h1 : alookup "A" c5ArchivedMap = some c5Archived := by decide
  have h2 : alookup "B" c5ArchivedMap = none := by decide
  constructor
  · exact (discover_all_tasks_archived_wins c5ActiveMap c5ArchivedMap "A").1
      c5Archived h1
  · exact (discover_all_tasks_archived_wins c5ActiveMapB c5ArchivedMap "B").2 h2

/-- C5 counterexample: when an active and an archived task share id A,
the merged discovery returns the archived entry, not the active one as
claimed. -/
theorem discover_all_tasks_counterexample :
    alookup "A" (discover_all_tasks c5ActiveMap c5ArchivedMap)
      = some c5Archived
  ∧ alookup "A" c5ActiveMap = some c5Active
  ∧ c5Archived ≠ c5Active := by decide

/-! ## The consistency validator

`validate` is embedded over the discovered task mappings.  The script
renders each diagnostic as a formatted string; the embedding keeps each
message's identifying fields as a `Diag` constructor (the rendering is
injective on them).  The script iterates `sorted(tasks.items())` and
interleaves the per-task checks of its first loop; the embedding runs
the same checks stage by stage over the enumeration list, which
preserves exactly which diagnostics are produced. -/

/-- One diagnostic of `validate`, with the fields the script interpolates
into the corresponding message. -/
inductive Diag
  | missingBoard
  | invalidBoard
  | folderMismatch (tid folder : String)
  | invalidFrontmatter (tid : String)
  | invalidStatus (tid st : String)
  | missingDep (tid dep : String)
  | depNotReady (tid st dep depSt : String)
  | missingParent (tid pid : String)
  | parentNotEpic (tid pid ptype : String)
  | missingChild (tid cid : String)
  | childBadBackref (tid cid : String) (cpe : Option String)
  | childNotListed (tid oid : String)
  | epicCycle (tid : String) (path : List String)
deriving DecidableEq

/-- Status-enum check: `st not in ALLOWED_STATUSES` is an error. -/
def statusErrors : List (String × Task) → List Diag
  | [] => []
  | (tid, task) :: rest =>
    (if task.status ∈ ALLOWED_STATUSES then []
     else [.invalidStatus tid task.status])
      ++ statusErrors rest

/-- Dependency-existence check over one task's `depends_on` list:
dependencies must resolve in the merged set. -/
def depExistDeps (all_tasks : List (String × Task)) (tid : String) :
    List String → List Diag
  | [] => []
  | dep :: rest =>
    (if (alookup dep all_tasks).isSome then [] else [.missingDep tid dep])
      ++ depExistDeps all_tasks tid rest

/-- Dependency-existence check over all tasks. -/
def depExistErrors (all_tasks : List (String × Task)) :
    List (String × Task) → List Diag
  | [] => []
  | (tid, task) :: rest =>
    depExistDeps all_tasks tid task.depends_on
      ++ depExistErrors all_tasks rest

/-- Dependency-readiness check over one task's `depends_on` list: an
error is recorded when the dependency resolves in the merged set, is
also in the active set, and its merged record's status is not done
(`if dep_task and dep in tasks and dep_task.status != "done"`). -/
def depReadyDeps (tasks all_tasks : List (String × Task))
    (tid stv : String) : List String → List Diag
  | [] => []
  | dep :: rest =>
    (match alookup dep all_tasks with
     | some dep_task =>
       if (alookup dep tasks).isSome ∧ dep_task.status ≠ "done" then
         [.depNotReady tid stv dep dep_task.status]
       else []
     | none => []) ++ depReadyDeps tasks all_tasks tid stv rest

/-- Dependency-readiness check: enforced only for tasks whose own status
is ready or in_progress. -/
def dep_readiness_errors (tasks all_tasks : List (String × Task)) :
    List (String × Task) → List Diag
  | [] => []
  | (tid, task) :: rest =>
    (if task.status = "ready" ∨ task.status = "in_progress" then
       depReadyDeps tasks all_tasks tid task.status task.depends_on
     else [])
      ++ dep_readiness_errors tasks all_tasks rest

/-- Children-existence check over one epic's `children` list. -/
def childExistKids (all_tasks : List (String × Task)) (tid : String) :
    List String → List Diag
  | [] => []
  | cid :: rest =>
    (if (alookup cid all_tasks).isSome then [] else [.missingChild tid cid])
      ++ childExistKids all_tasks tid rest

/-- Epic-reference errors: a set `parent_epic` must resolve in the
merged set, and every listed child must resolve in the merged set. -/
def epicRefErrors (all_tasks : List (String × Task)) :
    List (String × Task) → List Diag
  | [] => []
  | (tid, task) :: rest =>
    (match task.parent_epic with
     | some pid =>
       if (alookup pid all_tasks).isSome then [] else [.missingParent tid pid]
     | none => [])
      ++ childExistKids all_tasks tid task.children
      ++ epicRefErrors all_tasks rest

/-- Parent-type warnings: a resolving `parent_epic` that is active but
not of type epic is warned about. -/
def epicRefTypeWarnings (tasks all_tasks : List (String × Task)) :
    List (String × Task) → List Diag
  | [] => []
  | (tid, task) :: rest =>
    (match task.parent_epic with
     | some pid =>
       if (alookup pid all_tasks).isSome then
         match alookup pid tasks with
         | some parent =>
           if parent.task_type ≠ "epic" then
             [.parentNotEpic tid pid parent.task_type]
           else []
         | none => []
       else []
     | none => [])
      ++ epicRefTypeWarnings tasks all_tasks rest

/-- Back-reference warnings over one epic's children: an active child
whose `parent_epic` does not point back is warned about. -/
def childBackrefWarnings (tasks : List (String × Task)) (tid : String) :
    List String → List Diag
  | [] => []
  | cid :: rest =>
    (match alookup cid tasks with
     | some child =>
       if child.parent_epic ≠ some tid then
         [.childBadBackref tid cid child.parent_epic]
       else []
     | none => [])
      ++ childBackrefWarnings tasks tid rest

/-- Listing warnings over the whole active set: a task pointing at this
epic via `parent_epic` but absent from its children list is warned
about. -/
def childListedWarnings (tid : String) (children : List String) :
    List (String × Task) → List Diag
  | [] => []
  | (oid, other_task) :: rest =>
    (if other_task.parent_epic = some tid ∧ oid ∉ children then
       [.childNotListed tid oid]
     else [])
      ++ childListedWarnings tid children rest

/-- Bidirectional epic/child warnings, produced for each epic. -/
def bidiWarnings (tasks : List (String × Task)) :
    List (String × Task) → List Diag
  | [] => []
  | (tid, task) :: rest =>
    (if task.task_type = "epic" then
       childBackrefWarnings tasks tid task.children
         ++ childListedWarnings tid task.children tasks
     else [])
      ++ bidiWarnings tasks rest

/-- Whether an id resolves in the active set to a task of type epic
(`child_id in tasks and tasks[child_id].task_type == "epic"`). -/
def isActiveEpic (tasks : List (String × Task)) (tid : String) : Bool :=
  match alookup tid tasks with
  | some t => t.task_type = "epic"
  | none => false

/-- The suffix of a list starting at the first occurrence of an element:
`path[path.index(x):]`. -/
def dropUntil (x : String) : List String → List String
  | [] => []
  | y :: rest => if y = x then y :: rest else dropUntil x rest

/-- The recursive cycle search `find_epic_cycle` of `validate`: a node
already on the current path closes a cycle, reported from its first
occurrence through the repeat; otherwise the walk descends into every
child that is an active epic, with copies of the visited set and path.
The fuel argument bounds the recursion depth; `validate` supplies more
fuel than the depth the strictly growing visited set allows, so the
cutoff is never reached. -/
def find_epic_cycle (tasks : List (String × Task)) (fuel : Nat)
    (start_id : String) (visited path : List String) :
    Option (List String) :=
  match fuel with
  | 0 => none
  | f + 1 =>
    if start_id ∈ visited then some (dropUntil start_id path ++ [start_id])
    else
      match alookup start_id tasks with
      | none => none
      | some task =>
        if task.task_type = "epic" then
          firstSome (fun child =>
              if isActiveEpic tasks child then
                find_epic_cycle tasks f child (visited ++ [start_id])
                  (path ++ [start_id])
              else none)
            task.children
        else none

/-- The cycle-reporting loop of `validate`: scan the tasks in order,
start a search from each epic, and report only the first cycle found. -/
def epic_cycle_errors (tasks : List (String × Task)) :
    List (String × Task) → List Diag
  | [] => []
  | (tid, task) :: rest =>
    if task.task_type = "epic" then
      match find_epic_cycle tasks (tasks.length + 1) tid [] [] with
      | some cyc => [.epicCycle tid cyc]
      | none => epic_cycle_errors tasks rest
    else epic_cycle_errors tasks rest

/-- The pure core of `validate` over the discovered active and archived
mappings: all error diagnostics and all warning diagnostics of the
status, dependency, epic-reference, bidirectional and cycle stages. -/
def validateCore (tasks archived : List (String × Task)) :
    List Diag × List Diag :=
  let all_tasks := discover_all_tasks tasks archived
  (statusErrors tasks
     ++ depExistErrors all_tasks tasks
     ++ dep_readiness_errors tasks all_tasks tasks
     ++ epicRefErrors all_tasks tasks
     ++ epic_cycle_errors tasks tasks,
   epicRefTypeWarnings tasks all_tasks tasks ++ bidiWarnings tasks tasks)

/-! ## Membership lemmas for the readiness diagnostics -/

theorem alookup_some_mem {α : Type} (l : List (String × α)) (k : String)
    (v : α) (h : alookup k l = some v) : (k, v) ∈ l := by
  induction l with
  | nil => simp [alookup] at h
  | cons p rest ih =>
    by_cases hk : p.1 = k
    · simp only [alookup, hk, if_true] at h
      have hp : p = (k, v) := by
        cases p
        simp only [Option.some.injEq] at h
        simp_all
      rw [hp] at *
      exact List.mem_cons_self _ _
    · simp only [alookup, hk, if_false] at h
      exact List.mem_cons_of_mem _ (ih h)

theorem mem_alookup_of_nodup {α : Type} (l : List (String × α))
    (hnd : (l.map Prod.fst).Nodup) (k : String) (v : α)
    (h : (k, v) ∈ l) : alookup k l = some v := by
  induction l with
  | nil => simp at h
  | cons p rest ih =>
    rw [List.map_cons, List.nodup_cons] at hnd
    rcases List.mem_cons.mp h with h1 | h1
    · have hk : p.1 = k := by rw [← h1]
      have hv : p.2 = v := by rw [← h1]
      simp [alookup, hk, hv]
    · have hk : p.1 ≠ k := by
        intro he
        exact hnd.1 (he ▸ List.mem_map.mpr ⟨(k, v), h1, rfl⟩)
      simp only [alookup, hk, if_false]
      exact ih hnd.2 h1

theorem depNotReady_not_mem_statusErrors (l : List (String × Task))
    (a b c d : String) : Diag.depNotReady a b c d ∉ statusErrors l := by
  induction l with
  | nil => simp [statusErrors]
  | cons p rest ih =>
    obtain ⟨tid, task⟩ := p
    intro h
    rcases List.mem_append.mp h with h1 | h1
    · revert h1; split <;> simp
    · exact ih h1

theorem depNotReady_not_mem_depExistDeps
    (all_tasks : List (String × Task)) (tid : String) (deps : List String)
    (a b c d : String) :
    Diag.depNotReady a b c d ∉ depExistDeps all_tasks tid deps := by
  induction deps with
  | nil => simp [depExistDeps]
  | cons dep rest ih =>
    intro h
    rcases List.mem_append.mp h with h1 | h1
    · revert h1; split <;> simp
    · exact ih h1

theorem depNotReady_not_mem_depExistErrors
    (all_tasks : List (String × Task)) (l : List (String × Task))
    (a b c d : String) :
    Diag.depNotReady a b c d ∉ depExistErrors all_tasks l := by
  induction l with
  | nil => simp [depExistErrors]
  | cons p rest ih =>
    obtain ⟨tid, task⟩ := p
    intro h
    rcases List.mem_append.mp h with h1 | h1
    · exact depNotReady_not_mem_depExistDeps _ _ _ _ _ _ _ h1
    · exact ih h1

theorem depNotReady_not_mem_childExistKids
    (all_tasks : List (String × Task)) (tid : String) (kids : List String)
    (a b c d : String) :
    Diag.depNotReady a b c d ∉ childExistKids all_tasks tid kids := by
  induction kids with
  | nil => simp [childExistKids]
  | cons cid rest ih =>
    intro h
    rcases List.mem_append.mp h with h1 | h1
    · revert h1; split <;> simp
    · exact ih h1

theorem depNotReady_not_mem_epicRefErrors
    (all_tasks : List (String × Task)) (l : List (String × Task))
    (a b c d : String) :
    Diag.depNotReady a b c d ∉ epicRefErrors all_tasks l := by
  induction l with
  | nil => simp [epicRefErrors]
  | cons p rest ih =>
    obtain ⟨tid, task⟩ := p
    intro h
    rcases List.mem_append.mp h with h1 | h1
    · rcases List.mem_append.mp h1 with h2 | h2
      · revert h2
        cases task.parent_epic with
        | none => simp
        | some pid => split <;> simp
      · exact depNotReady_not_mem_childExistKids _ _ _ _ _ _ _ h2
    · exact ih h1

theorem depNotReady_not_mem_epic_cycle_errors
    (tasks : List (String × Task)) (l : List (String × Task))
    (a b c d : String) :
    Diag.depNotReady a b c d ∉ epic_cycle_errors tasks l := by
  induction l with
  | nil => simp [epic_cycle_errors]
  | cons p rest ih =>
    obtain ⟨tid, task⟩ := p
    simp only [epic_cycle_errors]
    split
    · split
      · simp
      · exact ih
    · exact ih

theorem mem_depReadyDeps (tasks all_tasks : List (String × Task))
    (tid1 stv1 : String) (deps : List String) (tid s dep ds : String) :
    Diag.depNotReady tid s dep ds ∈ depReadyDeps tasks all_tasks tid1 stv1 deps
    ↔ (tid = tid1 ∧ s = stv1 ∧ dep ∈ deps ∧ (alookup dep tasks).isSome ∧
        ∃ dt, alookup dep all_tasks = some dt ∧ dt.status ≠ "done"
          ∧ ds = dt.status) := by
  induction deps with
  | nil => simp [depReadyDeps]
  | cons dep1 rest ih =>
    cases halloc : alookup dep1 all_tasks with
    | none =>
      by_cases hd : dep = dep1
      · subst hd
        simp [depReadyDeps, halloc, ih]
      · simp [depReadyDeps, halloc, ih, hd]
    | some dt0 =>
      by_cases hd : dep = dep1
      · subst hd
        by_cases hcond : (alookup dep tasks).isSome ∧ dt0.status ≠ "done"
        · simp [depReadyDeps, halloc, hcond, ih, hcond.1, hcond.2]
          try tauto
        · simp [depReadyDeps, halloc, hcond, ih]
          try tauto
      · by_cases hcond : (alookup dep1 tasks).isSome ∧ dt0.status ≠ "done"
        · simp [depReadyDeps, halloc, hcond, ih, hd]
          try tauto
        · simp [depReadyDeps, halloc, hcond, ih, hd]
          try tauto

theorem mem_dep_readiness_errors (tasks all_tasks : List (String × Task))
    (l : List (String × Task)) (tid s dep ds : String) :
    Diag.depNotReady tid s dep ds ∈ dep_readiness_errors tasks all_tasks l
    ↔ ∃ t, (tid, t) ∈ l
        ∧ (t.status = "ready" ∨ t.status = "in_progress")
        ∧ s = t.status
        ∧ dep ∈ t.depends_on ∧ (alookup dep tasks).isSome
        ∧ ∃ dt, alookup dep all_tasks = some dt ∧ dt.status ≠ "done"
            ∧ ds = dt.status := by
  induction l with
  | nil => simp [dep_readiness_errors]
  | cons p rest ih =>
    obtain ⟨tid1, t1⟩ := p
    by_cases hcond : t1.status = "ready" ∨ t1.status = "in_progress"
    · simp only [dep_readiness_errors, if_pos hcond, List.mem_append,
        mem_depReadyDeps, ih]
      constructor
      · rintro (⟨e1, e2, h3, h4, hdt⟩ | ⟨t, hmem, hrest⟩)
        · exact ⟨t1, by rw [e1]; exact List.mem_cons_self _ _, hcond, e2,
            h3, h4, hdt⟩
        · exact ⟨t, List.mem_cons_of_mem _ hmem, hrest⟩
      · rintro ⟨t, hmem, hrdy, hs, h3, h4, hdt⟩
        rcases List.mem_cons.mp hmem with h1 | h1
        · left
          have e1 : tid = tid1 := congrArg Prod.fst h1
          have e2 : t = t1 := congrArg Prod.snd h1
          subst e2
          exact ⟨e1, hs, h3, h4, hdt⟩
        · right
          exact ⟨t, h1, hrdy, hs, h3, h4, hdt⟩
    · simp only [dep_readiness_errors, if_neg hcond, List.nil_append, ih]
      constructor
      · rintro ⟨t, hmem, hrest⟩
        exact ⟨t, List.mem_cons_of_mem _ hmem, hrest⟩
      · rintro ⟨t, hmem, hrdy, hrest⟩
        rcases List.mem_cons.mp hmem with h1 | h1
        · have e2 : t = t1 := congrArg Prod.snd h1
          rw [e2] at hrdy
          exact absurd hrdy hcond
        · exact ⟨t, h1, hrdy, hrest⟩

/-! ## Claim C1: dependency readiness (corrected) -/

/-- C1 (amended): for an active task T whose status is ready or
in_progress, validate reports a dependency-readiness error for a
dependency D of T iff D is listed in T's `depends_on`, D is present in
the active set, and the record the merged active+archived mapping holds
for D — the archived record when D's id is in both partitions — has a
status other than done.  When no id is shared between the partitions
this is exactly the claim's statement about the active record; the
counterexample shows the two differ on a collision, where the archived
record's status decides. -/
theorem validate_dep_readiness (ts as : List (String × Task))
    (hnd : (ts.map Prod.fst).Nodup) (tid : String) (t : Task)
    (ht : alookup tid ts = some t)
    (hst : t.status = "ready" ∨ t.status = "in_progress") (dep : String) :
    (∃ s ds, Diag.depNotReady tid s dep ds ∈ (validateCore ts as).1) ↔
    (dep ∈ t.depends_on ∧ (alookup dep ts).isSome ∧
      ∃ dt, alookup dep (discover_all_tasks ts as) = some dt
        ∧ dt.status ≠ "done") := by
  constructor
  · rintro ⟨s, ds, h⟩
    simp only [validateCore, List.mem_append] at h
    rcases h with ((((h | h) | h) | h) | h)
    · exact absurd h (depNotReady_not_mem_statusErrors _ _ _ _ _)
    · exact absurd h (depNotReady_not_mem_depExistErrors _ _ _ _ _ _)
    · rw [mem_dep_readiness_errors] at h
      obtain ⟨u, hmem, hrdy, hs, h3, h4, dt, hdt, hne, hds⟩ := h
      have hu : alookup tid ts = some u := mem_alookup_of_nodup ts hnd tid u hmem
      rw [ht] at hu
      injection hu with hu
      subst hu
      exact ⟨h3, h4, dt, hdt, hne⟩
    · exact absurd h (depNotReady_not_mem_epicRefErrors _ _ _ _ _ _)
    · exact absurd h (depNotReady_not_mem_epic_cycle_errors _ _ _ _ _ _)
  · rintro ⟨h3, h4, dt, hdt, hne⟩
    refine ⟨t.status, dt.status, ?_⟩
    simp only [validateCore, List.mem_append]
    refine Or.inl (Or.inl (Or.inr ?_))
    rw [mem_dep_readiness_errors]
    exact ⟨t, alookup_some_mem ts tid t ht, hst, rfl, h3, h4, dt, hdt, hne, rfl⟩

/-- The C1 counterexample active set: T is ready and depends on D; D is
active with status todo. -/
def c1Ts : List (String × Task) :=
  [("T", { status := "ready", depends_on := ["D"] }),
   ("D", { status := "todo" })]

/-- The C1 counterexample archived set: a second record for D, archived
with status done. -/
def c1As : List (String × Task) := [("D", { status := "done" })]

/-- C1 counterexample: D is an active (non-archived) task with status
todo ≠ done and is a dependency of the ready task T, so the claim
requires a readiness error for it — but validate consults the merged
mapping, in which the archived duplicate of D (status done) wins, and
reports no error at all. -/
theorem validate_dep_readiness_counterexample :
    alookup "T" c1Ts = some { status := "ready", depends_on := ["D"] }
  ∧ alookup "D" c1Ts = some { status := "todo" }
  ∧ (validateCore c1Ts c1As).1 = []
  ∧ ¬ (∃ s ds, Diag.depNotReady "T" s "D" ds ∈ (validateCore c1Ts c1As).1) := by
  refine ⟨by decide, by decide, by decide, ?_⟩
  rintro ⟨s, ds, h⟩
  rw [show (validateCore c1Ts c1As).1 = [] from by decide] at h
  simp at h

/-- C1 witness: with no archived duplicate, the amended statement
produces the readiness error for D at a concrete state. -/
theorem validate_dep_readiness_witness :
    ∃ s ds, Diag.depNotReady "T" s "D" ds ∈ (validateCore c1Ts []).1 := by
  have h := validate_dep_readiness c1Ts [] (by decide) "T"
    { status := "ready", depends_on := ["D"] } (by decide) (by decide) "D"
  exact h.mpr ⟨by decide, by decide, { status := "todo" }, by decide, by decide⟩

/-! ## Epic-cycle machinery -/

/-- The children list of an id in the active set, empty when absent. -/
def childrenOf (tasks : List (String × Task)) (a : String) : List String :=
  match alookup a tasks with
  | some t => t.children
  | none => []

/-- The edge relation the cycle walk follows: an active epic contains an
active epic child. -/
def epicEdge (tasks : List (String × Task)) (a b : String) : Prop :=
  isActiveEpic tasks a = true ∧ isActiveEpic tasks b = true ∧
    b ∈ childrenOf tasks a

instance (tasks : List (String × Task)) (a b : String) :
    Decidable (epicEdge tasks a b) :=
  inferInstanceAs (Decidable (isActiveEpic tasks a = true ∧
    isActiveEpic tasks b = true ∧ b ∈ childrenOf tasks a))

/-- A witness that the epic-children relation has a cycle, and the shape
the reported path takes: at least two nodes, first node equal to last,
consecutive nodes joined by epic-child edges, all nodes active epics. -/
def isEpicCycleList (tasks : List (String × Task)) (c : List String) :
    Prop :=
  2 ≤ c.length ∧ c.head? = c.getLast? ∧ List.Chain' (epicEdge tasks) c ∧
    ∀ x ∈ c, isActiveEpic tasks x = true

instance (tasks : List (String × Task)) (c : List String) :
    Decidable (isEpicCycleList tasks c) :=
  inferInstanceAs (Decidable (2 ≤ c.length ∧ c.head? = c.getLast? ∧
    List.Chain' (epicEdge tasks) c ∧ ∀ x ∈ c, isActiveEpic tasks x = true))

theorem isActiveEpic_iff (tasks : List (String × Task)) (x : String) :
    isActiveEpic tasks x = true ↔
      ∃ t, alookup x tasks = some t ∧ t.task_type = "epic" := by
  unfold isActiveEpic
  cases h : alookup x tasks <;> simp [h]

theorem firstSome_eq_some {α β : Type} (f : α → Option β) (l : List α)
    (b : β) (h : firstSome f l = some b) : ∃ a ∈ l, f a = some b := by
  induction l with
  | nil => simp [firstSome] at h
  | cons x rest ih =>
    rw [firstSome] at h
    cases hx : f x with
    | some b2 =>
      rw [hx] at h
      injection h with h
      exact ⟨x, List.mem_cons_self _ _, by rw [hx, h]⟩
    | none =>
      rw [hx] at h
      obtain ⟨a, ha, hfa⟩ := ih h
      exact ⟨a, List.mem_cons_of_mem _ ha, hfa⟩

theorem firstSome_isSome {α β : Type} (f : α → Option β) (l : List α)
    (a : α) (ha : a ∈ l) (h : (f a).isSome) : (firstSome f l).isSome := by
  induction l with
  | nil => simp at ha
  | cons x rest ih =>
    rw [firstSome]
    cases hx : f x with
    | some b => simp
    | none =>
      rcases List.mem_cons.mp ha with h1 | h1
      · rw [h1, hx] at h
        simp at h
      · exact ih h1

theorem dropUntil_eq_cons (x : String) (l : List String) (h : x ∈ l) :
    ∃ t, dropUntil x l = x :: t := by
  induction l with
  | nil => simp at h
  | cons y rest ih =>
    by_cases hy : y = x
    · exact ⟨rest, by simp [dropUntil, hy]⟩
    · rcases List.mem_cons.mp h with h1 | h1
      · exact absurd h1.symm hy
      · obtain ⟨t, ht⟩ := ih h1
        exact ⟨t, by simp [dropUntil, hy, ht]⟩

theorem dropUntil_suffix (x : String) (l : List String) :
    ∃ pre, pre ++ dropUntil x l = l := by
  induction l with
  | nil => exact ⟨[], rfl⟩
  | cons y rest ih =>
    by_cases hy : y = x
    · exact ⟨[], by simp [dropUntil, hy]⟩
    · obtain ⟨pre, hpre⟩ := ih
      exact ⟨y :: pre, by simp [dropUntil, hy, hpre]⟩

theorem nodup_append_singleton {α : Type} (l : List α) (a : α)
    (h : l.Nodup) (ha : a ∉ l) : (l ++ [a]).Nodup := by
  rw [List.nodup_append]
  refine ⟨h, List.nodup_singleton a, ?_⟩
  intro b hb hb2
  rw [List.mem_singleton] at hb2
  rw [hb2] at hb
  exact ha hb

theorem chain'_mem_succ {α : Type} {R : α → α → Prop} :
    ∀ l : List α, List.Chain' R l → ∀ x ∈ l.dropLast, ∃ y ∈ l, R x y
  | [], _, x, hx => by simp at hx
  | [a], _, x, hx => by simp at hx
  | a :: b :: rest, hch, x, hx => by
    rw [List.chain'_cons] at hch
    rcases List.mem_cons.mp hx with h1 | h1
    · exact ⟨b, List.mem_cons_of_mem _ (List.mem_cons_self _ _), h1 ▸ hch.1⟩
    · obtain ⟨y, hy, hr⟩ := chain'_mem_succ (b :: rest) hch.2 x h1
      exact ⟨y, List.mem_cons_of_mem _ hy, hr⟩

theorem length_filter_lt {α : Type} (l : List α) (p q : α → Bool)
    (himp : ∀ x, q x = true → p x = true) (a : α) (ha : a ∈ l)
    (hpa : p a = true) (hqa : q a = false) :
    (l.filter q).length < (l.filter p).length := by
  induction l with
  | nil => simp at ha
  | cons x rest ih =>
    rw [List.filter_cons, List.filter_cons]
    rcases List.mem_cons.mp ha with h1 | h1
    · subst h1
      rw [hpa, hqa]
      simp only [if_true, Bool.false_eq_true, if_false, List.length_cons]
      have hle : (rest.filter q).length ≤ (rest.filter p).length :=
        (List.monotone_filter_right rest himp).length_le
      omega
    · have hrec := ih h1
      cases hpx : p x with
      | true =>
        cases hqx : q x with
        | true => simp only [if_true, List.length_cons]; omega
        | false =>
          simp only [if_true, Bool.false_eq_true, if_false, List.length_cons]
          omega
      | false =>
        cases hqx : q x with
        | true => exact absurd (himp x hqx) (by simp [hpx])
        | false =>
          simp only [Bool.false_eq_true, if_false]
          omega

theorem nodup_subset_length {α : Type} [DecidableEq α] (l1 l2 : List α)
    (h1 : l1.Nodup) (hsub : l1 ⊆ l2) : l1.length ≤ l2.length := by
  calc l1.length = l1.toFinset.card := (List.toFinset_card_of_nodup h1).symm
    _ ≤ l2.toFinset.card := Finset.card_le_card (fun x hx => by
        rw [List.mem_toFinset] at hx ⊢
        exact hsub hx)
    _ ≤ l2.length := l2.toFinset_card_le

theorem find_epic_cycle_sound (tasks : List (String × Task)) :
    ∀ (fuel : Nat) (start : String) (visited path : List String)
      (cyc : List String),
      (∀ x, x ∈ visited ↔ x ∈ path) →
      path.Nodup →
      List.Chain' (epicEdge tasks) (path ++ [start]) →
      (∀ x ∈ path, isActiveEpic tasks x = true) →
      find_epic_cycle tasks fuel start visited path = some cyc →
      isEpicCycleList tasks cyc ∧ cyc.dropLast.Nodup := by
  intro fuel
  induction fuel with
  | zero =>
    intro start visited path cyc _ _ _ _ h
    simp [find_epic_cycle] at h
  | succ f ih =>
    intro start visited path cyc hvp hnd hch hep h
    rw [find_epic_cycle] at h
    by_cases hv : start ∈ visited
    · rw [if_pos hv] at h
      injection h with hcyc
      subst hcyc
      have hp : start ∈ path := (hvp start).mp hv
      obtain ⟨tail, hdu⟩ := dropUntil_eq_cons start path hp
      obtain ⟨pre, hpre⟩ := dropUntil_suffix start path
      rw [hdu] at hpre
      rw [hdu]
      have hsuffix : List.IsSuffix ((start :: tail) ++ [start])
          (path ++ [start]) :=
        ⟨pre, by rw [← List.append_assoc, hpre]⟩
      have hsub : List.Sublist (start :: tail) path :=
        (List.IsSuffix.sublist ⟨pre, hpre⟩)
      refine ⟨⟨?_, ?_, ?_, ?_⟩, ?_⟩
      · simp
      · rw [List.getLast?_concat]
        rfl
      · exact List.Chain'.suffix hch hsuffix
      · intro x hx
        rcases List.mem_append.mp hx with h1 | h1
        · exact hep x (hsub.subset h1)
        · rw [List.mem_singleton] at h1
          rw [h1]
          exact hep start hp
      · rw [List.dropLast_concat]
        exact List.Nodup.sublist hsub hnd
    · rw [if_neg hv] at h
      cases halloc : alookup start tasks with
      | none =>
        simp only [halloc] at h
        cases h
      | some task =>
        simp only [halloc] at h
        by_cases htype : task.task_type = "epic"
        · rw [if_pos htype] at h
          obtain ⟨child, hcmem, hchild⟩ := firstSome_eq_some _ _ _ h
          by_cases hae : isActiveEpic tasks child
          · rw [if_pos hae] at hchild
            have hse : isActiveEpic tasks start = true :=
              (isActiveEpic_iff tasks start).mpr ⟨task, halloc, htype⟩
            have hnp : start ∉ path := fun hx => hv ((hvp start).mpr hx)
            refine ih child (visited ++ [start]) (path ++ [start]) cyc
              ?_ ?_ ?_ ?_ hchild
            · intro x
              simp only [List.mem_append, List.mem_singleton, hvp x]
            · exact nodup_append_singleton path start hnd hnp
            · rw [List.chain'_append]
              refine ⟨hch, List.chain'_singleton _, ?_⟩
              intro x hx y hy
              rw [List.getLast?_concat, Option.mem_def,
                Option.some.injEq] at hx
              simp only [List.head?_cons, Option.mem_def,
                Option.some.injEq] at hy
              rw [← hx, ← hy]
              refine ⟨hse, hae, ?_⟩
              unfold childrenOf
              rw [halloc]
              exact hcmem
            · intro x hx
              rcases List.mem_append.mp hx with h1 | h1
              · exact hep x h1
              · rw [List.mem_singleton] at h1
                rw [h1]
                exact hse
          · rw [if_neg hae] at hchild
            simp at hchild
        · rw [if_neg htype] at h
          simp at h

theorem find_epic_cycle_complete (tasks : List (String × Task))
    (S : List String)
    (hS : ∀ x ∈ S, isActiveEpic tasks x = true ∧
        ∃ y ∈ S, y ∈ childrenOf tasks x) :
    ∀ (fuel : Nat) (visited : List String) (start : String), start ∈ S →
      (S.dedup.filter (fun x => ! decide (x ∈ visited))).length < fuel →
      ∀ path, (find_epic_cycle tasks fuel start visited path).isSome := by
  intro fuel
  induction fuel with
  | zero =>
    intro visited start _ hbound
    exact absurd hbound (Nat.not_lt_zero _)
  | succ f ih =>
    intro visited start hstart hbound path
    rw [find_epic_cycle]
    by_cases hv : start ∈ visited
    · rw [if_pos hv]
      rfl
    · rw [if_neg hv]
      obtain ⟨hepic, y, hyS, hychild⟩ := hS start hstart
      obtain ⟨task, halloc, htype⟩ := (isActiveEpic_iff tasks start).mp hepic
      simp only [halloc]
      rw [if_pos htype]
      have hychildren : y ∈ task.children := by
        unfold childrenOf at hychild
        rw [halloc] at hychild
        exact hychild
      refine firstSome_isSome _ _ y hychildren ?_
      have hyepic : isActiveEpic tasks y = true := (hS y hyS).1
      rw [if_pos hyepic]
      refine ih (visited ++ [start]) y hyS ?_ (path ++ [start])
      have hdec : (S.dedup.filter
            (fun x => ! decide (x ∈ visited ++ [start]))).length
          < (S.dedup.filter (fun x => ! decide (x ∈ visited))).length := by
        refine length_filter_lt _ _ _ ?_ start ?_ ?_ ?_
        · intro x hx
          simp only [List.mem_append, List.mem_singleton,
            Bool.not_eq_true', decide_eq_false_iff_not] at hx ⊢
          intro hmem
          exact hx (Or.inl hmem)
        · exact List.mem_dedup.mpr hstart
        · simp [hv]
        · simp
      omega

theorem epic_cycle_errors_eq (tasks l : List (String × Task)) :
    epic_cycle_errors tasks l = [] ∨
    ∃ tid cyc, epic_cycle_errors tasks l = [Diag.epicCycle tid cyc] ∧
      find_epic_cycle tasks (tasks.length + 1) tid [] [] = some cyc := by
  induction l with
  | nil => exact Or.inl rfl
  | cons q rest ih =>
    obtain ⟨tid1, t1⟩ := q
    simp only [epic_cycle_errors]
    by_cases ht : t1.task_type = "epic"
    · rw [if_pos ht]
      cases hf : find_epic_cycle tasks (tasks.length + 1) tid1 [] [] with
      | some cyc => exact Or.inr ⟨tid1, cyc, rfl, hf⟩
      | none => exact ih
    · rw [if_neg ht]
      exact ih

theorem epic_cycle_errors_ne_nil (tasks l : List (String × Task))
    (h : ∃ p : String × Task, p ∈ l ∧ p.2.task_type = "epic" ∧
      (find_epic_cycle tasks (tasks.length + 1) p.1 [] []).isSome) :
    epic_cycle_errors tasks l ≠ [] := by
  induction l with
  | nil =>
    obtain ⟨p, hp, _⟩ := h
    simp at hp
  | cons q rest ih =>
    obtain ⟨tid1, t1⟩ := q
    simp only [epic_cycle_errors]
    by_cases ht : t1.task_type = "epic"
    · rw [if_pos ht]
      cases hf : find_epic_cycle tasks (tasks.length + 1) tid1 [] [] with
      | some cyc => simp
      | none =>
        apply ih
        obtain ⟨p, hp, hpe, hps⟩ := h
        rcases List.mem_cons.mp hp with h1 | h1
        · rw [h1] at hps
          simp only at hps
          rw [hf] at hps
          simp at hps
        · exact ⟨p, h1, hpe, hps⟩
    · rw [if_neg ht]
      apply ih
      obtain ⟨p, hp, hpe, hps⟩ := h
      rcases List.mem_cons.mp hp with h1 | h1
      · rw [h1] at hpe
        simp only at hpe
        exact absurd hpe ht
      · exact ⟨p, h1, hpe, hps⟩

/-- Closure of a cycle witness: every node of the cycle is an active
epic with an epic-child successor inside the cycle. -/
theorem cycle_closure (tasks : List (String × Task)) (C : List String)
    (hC : isEpicCycleList tasks C) :
    ∀ x ∈ C, isActiveEpic tasks x = true ∧
      ∃ y ∈ C, y ∈ childrenOf tasks x := by
  obtain ⟨hlen, hhl, hch, hep⟩ := hC
  have hsucc : ∀ x ∈ C.dropLast, ∃ y ∈ C, y ∈ childrenOf tasks x := by
    intro x hx
    obtain ⟨y, hy, hr⟩ := chain'_mem_succ C hch x hx
    exact ⟨y, hy, hr.2.2⟩
  intro x hx
  refine ⟨hep x hx, ?_⟩
  have hne : C ≠ [] := by
    intro he
    rw [he] at hlen
    simp at hlen
  have hsplit : x ∈ C.dropLast ∨ x = C.getLast hne := by
    rcases List.mem_append.mp
        (by rw [List.dropLast_append_getLast hne]; exact hx) with h1 | h1
    · exact Or.inl h1
    · rw [List.mem_singleton] at h1
      exact Or.inr h1
  rcases hsplit with h1 | h1
  · exact hsucc x h1
  · have hhead : C.head hne ∈ C.dropLast := by
      cases C with
      | nil => exact absurd rfl hne
      | cons a rest =>
        cases rest with
        | nil => simp at hlen
        | cons b rest2 =>
          exact List.mem_cons_self _ _
    have hxh : x = C.head hne := by
      rw [h1]
      have h2 : C.head? = some (C.head hne) := List.head?_eq_head hne
      have h3 : C.getLast? = some (C.getLast hne) :=
        List.getLast?_eq_getLast C hne
      rw [h2, h3] at hhl
      injection hhl with h4
      rw [h4]
    rw [hxh]
    exact hsucc _ hhead

theorem epicCycle_not_mem_statusErrors (l : List (String × Task))
    (a : String) (p : List String) :
    Diag.epicCycle a p ∉ statusErrors l := by
  induction l with
  | nil => simp [statusErrors]
  | cons q rest ih =>
    obtain ⟨tid, task⟩ := q
    intro h
    rcases List.mem_append.mp h with h1 | h1
    · revert h1; split <;> simp
    · exact ih h1

theorem epicCycle_not_mem_depExistDeps (all_tasks : List (String × Task))
    (tid : String) (deps : List String) (a : String) (p : List String) :
    Diag.epicCycle a p ∉ depExistDeps all_tasks tid deps := by
  induction deps with
  | nil => simp [depExistDeps]
  | cons dep rest ih =>
    intro h
    rcases List.mem_append.mp h with h1 | h1
    · revert h1; split <;> simp
    · exact ih h1

theorem epicCycle_not_mem_depExistErrors (all_tasks : List (String × Task))
    (l : List (String × Task)) (a : String) (p : List String) :
    Diag.epicCycle a p ∉ depExistErrors all_tasks l := by
  induction l with
  | nil => simp [depExistErrors]
  | cons q rest ih =>
    obtain ⟨tid, task⟩ := q
    intro h
    rcases List.mem_append.mp h with h1 | h1
    · exact epicCycle_not_mem_depExistDeps _ _ _ _ _ h1
    · exact ih h1

theorem epicCycle_not_mem_depReadyDeps (tasks all_tasks : List (String × Task))
    (tid stv : String) (deps : List String) (a : String) (p : List String) :
    Diag.epicCycle a p ∉ depReadyDeps tasks all_tasks tid stv deps := by
  induction deps with
  | nil => simp [depReadyDeps]
  | cons dep rest ih =>
    intro h
    rcases List.mem_append.mp h with h1 | h1
    · revert h1
      cases alookup dep all_tasks with
      | none => simp
      | some dt => split <;> simp
    · exact ih h1

theorem epicCycle_not_mem_dep_readiness_errors
    (tasks all_tasks : List (String × Task)) (l : List (String × Task))
    (a : String) (p : List String) :
    Diag.epicCycle a p ∉ dep_readiness_errors tasks all_tasks l := by
  induction l with
  | nil => simp [dep_readiness_errors]
  | cons q rest ih =>
    obtain ⟨tid, task⟩ := q
    intro h
    rcases List.mem_append.mp h with h1 | h1
    · revert h1
      split
      · exact fun h2 => epicCycle_not_mem_depReadyDeps _ _ _ _ _ _ _ h2
      · simp
    · exact ih h1

theorem epicCycle_not_mem_childExistKids (all_tasks : List (String × Task))
    (tid : String) (kids : List String) (a : String) (p : List String) :
    Diag.epicCycle a p ∉ childExistKids all_tasks tid kids := by
  induction kids with
  | nil => simp [childExistKids]
  | cons cid rest ih =>
    intro h
    rcases List.mem_append.mp h with h1 | h1
    · revert h1; split <;> simp
    · exact ih h1

theorem epicCycle_not_mem_epicRefErrors (all_tasks : List (String × Task))
    (l : List (String × Task)) (a : String) (p : List String) :
    Diag.epicCycle a p ∉ epicRefErrors all_tasks l := by
  induction l with
  | nil => simp [epicRefErrors]
  | cons q rest ih =>
    obtain ⟨tid, task⟩ := q
    intro h
    rcases List.mem_append.mp h with h1 | h1
    · rcases List.mem_append.mp h1 with h2 | h2
      · revert h2
        cases task.parent_epic with
        | none => simp
        | some pid => split <;> simp
      · exact epicCycle_not_mem_childExistKids _ _ _ _ _ h2
    · exact ih h1

/-- Whether a diagnostic is a circular-epic-reference error. -/
def isCycleDiag : Diag → Bool
  | .epicCycle _ _ => true
  | _ => false

theorem filter_cycle_nil (l : List Diag)
    (h : ∀ a p, Diag.epicCycle a p ∉ l) :
    l.filter isCycleDiag = [] := by
  rw [List.filter_eq_nil_iff]
  intro x hx
  cases x <;> simp [isCycleDiag]
  exact h _ _ hx

/-! ## Claim C8: exactly one epic-cycle error -/

/-- C8: when the epic-children relation contains a cycle among epics,
validate reports exactly one circular-epic-reference error; its reported
path runs from the first occurrence of the repeated node through the
repeat inclusive (first element = last element, no other node repeated),
follows epic-child edges, and consists solely of active epics — so
non-epic children never participate in a reported cycle. -/
theorem validate_reports_one_epic_cycle (ts as : List (String × Task))
    (hcyc : ∃ C, isEpicCycleList ts C) :
    ∃ tid cyc, ((validateCore ts as).1).filter isCycleDiag
        = [Diag.epicCycle tid cyc]
      ∧ isEpicCycleList ts cyc ∧ cyc.dropLast.Nodup := by
  obtain ⟨C, hC⟩ := hcyc
  have hclosure := cycle_closure ts C hC
  have hne : C ≠ [] := by
    intro he
    obtain ⟨h2, _⟩ := hC
    rw [he] at h2
    simp at h2
  have hc0 : C.head hne ∈ C := List.head_mem hne
  have hc0epic := (hclosure _ hc0).1
  obtain ⟨t0, halloc0, htype0⟩ := (isActiveEpic_iff ts _).mp hc0epic
  have hsub : C.dedup ⊆ ts.map Prod.fst := by
    intro x hx
    have hx2 : x ∈ C := List.mem_dedup.mp hx
    obtain ⟨tx, hax, _⟩ := (isActiveEpic_iff ts x).mp (hclosure x hx2).1
    exact List.mem_map.mpr ⟨(x, tx), alookup_some_mem _ _ _ hax, rfl⟩
  have hlen : C.dedup.length ≤ ts.length := by
    have h := nodup_subset_length C.dedup (ts.map Prod.fst)
      (List.nodup_dedup C) hsub
    simpa using h
  have hbound : (C.dedup.filter
      (fun x => ! decide (x ∈ ([] : List String)))).length
      < ts.length + 1 := by
    have he : C.dedup.filter (fun x => ! decide (x ∈ ([] : List String)))
        = C.dedup := by
      rw [List.filter_eq_self]
      intro x _
      simp
    rw [he]
    omega
  have hfind : (find_epic_cycle ts (ts.length + 1) (C.head hne) [] []).isSome :=
    find_epic_cycle_complete ts C hclosure (ts.length + 1) [] (C.head hne)
      hc0 hbound []
  have hnn := epic_cycle_errors_ne_nil ts ts
    ⟨(C.head hne, t0), alookup_some_mem _ _ _ halloc0, htype0, hfind⟩
  rcases epic_cycle_errors_eq ts ts with he | ⟨tid, cyc, heq, hf⟩
  · exact absurd he hnn
  · have hsound := find_epic_cycle_sound ts (ts.length + 1) tid [] [] cyc
      (by simp) List.nodup_nil (by simp) (by simp) hf
    refine ⟨tid, cyc, ?_, hsound.1, hsound.2⟩
    simp only [validateCore, List.filter_append]
    rw [filter_cycle_nil _ (fun a p => epicCycle_not_mem_statusErrors _ a p),
      filter_cycle_nil _ (fun a p => epicCycle_not_mem_depExistErrors _ _ a p),
      filter_cycle_nil _
        (fun a p => epicCycle_not_mem_dep_readiness_errors _ _ _ a p),
      filter_cycle_nil _ (fun a p => epicCycle_not_mem_epicRefErrors _ _ a p),
      heq]
    simp [isCycleDiag]

/-- The spec cycle scenario: epics A → B → C → A via children. -/
def c8Ts : List (String × Task) :=
  [("A", { status := "todo", task_type := "epic", children := ["B"] }),
   ("B", { status := "todo", task_type := "epic", children := ["C"] }),
   ("C", { status := "todo", task_type := "epic", children := ["A"] })]

/-- C8 witness: the A → B → C → A state produces exactly one cycle
error with a well-formed reported path. -/
theorem validate_reports_one_epic_cycle_witness :
    ∃ tid cyc, ((validateCore c8Ts []).1).filter isCycleDiag
        = [Diag.epicCycle tid cyc]
      ∧ isEpicCycleList c8Ts cyc ∧ cyc.dropLast.Nodup := by
  apply validate_reports_one_epic_cycle c8Ts []
  refine ⟨["A", "B", "C", "A"], by decide, by decide, ?_, by decide⟩
  rw [List.chain'_cons, List.chain'_cons, List.chain'_cons]
  exact ⟨⟨by decide, by decide, by decide⟩, ⟨by decide, by decide, by decide⟩,
    ⟨by decide, by decide, by decide⟩, List.chain'_singleton _⟩

/-! ## Record store: frontmatter parsing and serialization

The task-record format layer: Python string helpers on `List Char`, the
`FM_RE` regular-expression match (`^---\s*\n(.*?)\n---\s*\n`, dotall,
anchored, with greedy `\s*` and a lazy group, embedded as an explicit
backtracking scan), and the external YAML library.  The YAML library is
not part of this repository; `Modelled from the spec:` doc comments mark
the functions standing in for it. -/

/-- Python's `\s` whitespace class (ASCII). -/
def pyIsSpace (c : Char) : Bool :=
  c = ' ' || c = '\t' || c = '\n' || c = '\r' || c = '\x0b' || c = '\x0c'

/-- Python `str.lstrip()` on characters. -/
def pyLstrip (l : List Char) : List Char :=
  l.dropWhile pyIsSpace

/-- Python `str.rstrip()` on characters. -/
def pyRstrip (l : List Char) : List Char :=
  (l.reverse.dropWhile pyIsSpace).reverse

/-- Python `str.strip()` on characters. -/
def pyStrip (l : List Char) : List Char :=
  pyRstrip (pyLstrip l)

/-- Python `str.strip()` on strings. -/
def pyStripS (s : String) : String :=
  String.mk (pyStrip s.data)

/-- Whether the pattern list is a prefix of the list. -/
def startsWithL : List Char → List Char → Bool
  | [], _ => true
  | _ :: _, [] => false
  | p :: ps, c :: cs => p = c && startsWithL ps cs

/-- Python `str.startswith` on strings. -/
def strStartsWith (s pre : String) : Bool :=
  startsWithL pre.data s.data

/-- The ways the regex atom `\s*\n` can match a prefix of the input,
as the list of remainders in the backtracking engine's preference
order, greediest `\s*` first: one entry per newline lying in the
leading whitespace run. -/
def wsNlCandidates : List Char → List (List Char)
  | [] => []
  | c :: rest =>
    (if pyIsSpace c then wsNlCandidates rest else [])
      ++ (if c = '\n' then [rest] else [])

/-- Whether the terminator start `\n---` occurs anywhere in the list:
absent from the dumped frontmatter, so the terminator the serializer
appends is the first one the lazy scan can find. -/
def hasNlDashes : List Char → Bool
  | [] => false
  | c :: rest =>
    (c = '\n' && startsWithL ['-', '-', '-'] rest) || hasNlDashes rest

/-- The scan of the lazy group `(.*?)` followed by `\n---\s*\n`: at each
position, first try to match the terminator (preferring the greediest
`\s*`), otherwise grow the group by one character.  Returns the group
and the remainder after the full match. -/
def lazyFmEnd : List Char → Option (List Char × List Char)
  | [] => none
  | c :: rest =>
    if c = '\n' ∧ startsWithL ['-', '-', '-'] rest then
      match wsNlCandidates (rest.drop 3) with
      | w :: _ => some ([], w)
      | [] => (lazyFmEnd rest).map (fun p => (c :: p.1, p.2))
    else (lazyFmEnd rest).map (fun p => (c :: p.1, p.2))

/-- `FM_RE.match(md)`: the anchored opener `---` then `\s*\n` (greedy,
backtracking over its admissible splits), then the lazy group and
terminator.  Returns `(group(1), md[m.end():])`. -/
def fmSplit (md : List Char) : Option (List Char × List Char) :=
  match md with
  | '-' :: '-' :: '-' :: tail => firstSome lazyFmEnd (wsNlCandidates tail)
  | _ => none

/-- A YAML value of the restricted shapes task frontmatter uses: a plain
scalar string or a list of scalar strings. -/
inductive YVal
  | s (v : String)
  | l (items : List String)
deriving DecidableEq

/-- A frontmatter mapping: ordered key/value pairs (`sort_keys=False`). -/
def Frontmatter : Type := List (String × YVal)

instance : DecidableEq Frontmatter :=
  inferInstanceAs (DecidableEq (List (String × YVal)))

/-- A loaded YAML document: nothing, a bare scalar, or a mapping. -/
inductive YDoc
  | null
  | str (v : String)
  | map (fm : List (String × YVal))
deriving DecidableEq

/-- Modelled from the spec: the rendering of one frontmatter entry by
the external `yaml.safe_dump(..., sort_keys=False)` collaborator, for
the restricted value shapes: `key: value` for scalars, `key: []` for an
empty list, and `key:` followed by `- item` lines otherwise. -/
def dumpKV : String × YVal → List (List Char)
  | (k, .s v) => [k.data ++ ':' :: ' ' :: v.data]
  | (k, .l []) => [k.data ++ [':', ' ', '[', ']']]
  | (k, .l items) =>
    (k.data ++ [':']) :: items.map (fun it => '-' :: ' ' :: it.data)

/-- The line list of a dumped mapping. -/
def dumpLines : List (String × YVal) → List (List Char)
  | [] => []
  | kv :: rest => dumpKV kv ++ dumpLines rest

/-- Join lines with newlines (no trailing newline). -/
def joinLines : List (List Char) → List Char
  | [] => []
  | [l] => l
  | l :: l2 :: rest => l ++ '\n' :: joinLines (l2 :: rest)

/-- `dump_yaml_str`: the dumped mapping, trailing newline stripped
(`yaml.safe_dump(obj, sort_keys=False).strip()`). -/
def dump_yaml_str (fm : List (String × YVal)) : List Char :=
  joinLines (dumpLines fm)

/-- Split on newlines (Python `"\n".split` semantics: one more part
than newlines, empty parts kept). -/
def splitLines : List Char → List (List Char)
  | [] => [[]]
  | c :: rest =>
    let r := splitLines rest
    if c = '\n' then [] :: r
    else
      match r with
      | [] => [[c]]
      | h :: t => (c :: h) :: t

/-- Split a line at the first `: ` occurrence. -/
def findColonSpace : List Char → Option (List Char × List Char)
  | [] => none
  | c :: rest =>
    if c = ':' ∧ rest.head? = some ' ' then some ([], rest.tail)
    else (findColonSpace rest).map (fun p => (c :: p.1, p.2))

/-- Consume leading `- item` lines. -/
def takeItems : List (List Char) → List String × List (List Char)
  | [] => ([], [])
  | ln :: rest =>
    match ln with
    | '-' :: ' ' :: it =>
      let r := takeItems rest
      (String.mk it :: r.1, r.2)
    | _ => ([], ln :: rest)

theorem takeItems_length_le :
    ∀ lns : List (List Char), (takeItems lns).2.length ≤ lns.length := by
  intro lns
  induction lns with
  | nil => simp [takeItems]
  | cons ln rest ih =>
    rcases ln with _ | ⟨c1, _ | ⟨c2, it⟩⟩
    · simp [takeItems]
    · simp [takeItems]
    · by_cases hc1 : c1 = '-'
      · by_cases hc2 : c2 = ' '
        · subst hc1; subst hc2
          simp only [takeItems, List.length_cons]
          exact Nat.le_succ_of_le ih
        · simp [takeItems, hc2]
      · simp [takeItems, hc1]

/-- Modelled from the spec: line-oriented parsing of a dumped mapping by
the external YAML loader, inverse to `dumpKV` on the shapes it emits.
The fuel argument (structural, supplied as the number of lines) bounds
the recursion; it never runs out when it starts at the line count. -/
def parseLinesF : Nat → List (List Char) → Option (List (String × YVal))
  | _, [] => some []
  | 0, _ :: _ => none
  | f + 1, ln :: rest =>
    match findColonSpace ln with
    | some (k, v) =>
      if v = ['[', ']'] then
        (parseLinesF f rest).map (fun fm => (String.mk k, .l []) :: fm)
      else
        (parseLinesF f rest).map
          (fun fm => (String.mk k, .s (String.mk v)) :: fm)
    | none =>
      match ln.getLast? with
      | some ':' =>
        let r := takeItems rest
        (parseLinesF f r.2).map
          (fun fm => (String.mk ln.dropLast, .l r.1) :: fm)
      | _ => none

/-- Line parsing with fuel the line count. -/
def parseLines (lns : List (List Char)) : Option (List (String × YVal)) :=
  parseLinesF lns.length lns

/-- Modelled from the spec: the external `yaml.safe_load` collaborator
on the document shapes this tool stores — whitespace loads as `None`, a
mapping loads as a mapping, a single plain line without a colon loads
as a bare scalar, and anything else is a parse failure. -/
def yaml_safe_load (l : List Char) : Option YDoc :=
  let content := (splitLines l).filter (fun ln => ! (pyStrip ln).isEmpty)
  if content.isEmpty then some .null
  else
    match parseLines content with
    | some fm => some (.map fm)
    | none =>
      match content with
      | [ln] =>
        if (findColonSpace ln).isSome ∨ ln.getLast? = some ':' then none
        else some (.str (String.mk (pyStrip ln)))
      | _ => none

deriving instance DecidableEq for Except

/-- `parse_frontmatter`: match `FM_RE` (error when absent), load the
captured YAML (`or {}` turns an empty document into the empty mapping,
a YAML failure propagates, a non-mapping document errors), and return
the mapping with the text after the match. -/
def parse_frontmatter (md : String) :
    Except String (List (String × YVal) × String) :=
  match fmSplit md.data with
  | none => .error "missing YAML frontmatter"
  | some (fm_raw, body) =>
    match yaml_safe_load fm_raw with
    | none => .error "invalid YAML in frontmatter"
    | some .null => .ok ([], String.mk body)
    | some (.str _) => .error "frontmatter must be a YAML mapping"
    | some (.map fm) => .ok (fm, String.mk body)

/-- `render_task_markdown`: the serialized record
`---\n{dump_yaml_str(frontmatter)}\n---\n\n{body.lstrip()}`. -/
def render_task_markdown (fm : List (String × YVal)) (body : String) :
    String :=
  String.mk ((('-' :: '-' :: '-' :: '\n' :: dump_yaml_str fm)
    ++ '\n' :: '-' :: '-' :: '-' :: '\n' :: '\n' :: pyLstrip body.data))

/-- `write_text`: every persisted file is the content right-stripped
with exactly one trailing newline appended. -/
def write_text_content (content : String) : String :=
  String.mk (pyRstrip content.data ++ ['\n'])

/-- A task record as saved on disk: rendered then written. -/
def saved_task (fm : List (String × YVal)) (body : String) : String :=
  write_text_content (render_task_markdown fm body)

/-! ## Discovery and the full validate pipeline -/

/-- Python `str(...)` of a list of strings, as in `str(['a', 'b'])`. -/
def pythonStrOfList (items : List String) : String :=
  "[" ++ String.intercalate ", " (items.map (fun it => "\x27" ++ it ++ "\x27"))
    ++ "]"

/-- Python `str(value)` of a loaded YAML value. -/
def yvalStr : YVal → String
  | .s v => v
  | .l items => pythonStrOfList items

/-- `str(frontmatter.get(key, dflt))`. -/
def fmGetStrDefault (fm : List (String × YVal)) (key dflt : String) :
    String :=
  match alookup key fm with
  | some v => yvalStr v
  | none => dflt

/-- `str(frontmatter.get(key) or dflt)`: Python truthiness sends a
missing key, an empty string and an empty list to the default. -/
def fmGetOrName (fm : List (String × YVal)) (key dflt : String) : String :=
  match alookup key fm with
  | some (.s v) => if v = "" then dflt else v
  | some (.l items) => if items = [] then dflt else pythonStrOfList items
  | none => dflt

/-- `frontmatter.get(key) or []` followed by `list(...)`: a list value
is taken as is, a truthy string iterates into one-character strings. -/
def fmGetList (fm : List (String × YVal)) (key : String) : List String :=
  match alookup key fm with
  | some (.l items) => items
  | some (.s v) =>
    if v = "" then [] else v.data.map (fun c => String.mk [c])
  | none => []

/-- An optional reference field: absent, empty or the literal string
null all mean unset (`None if v in (None, "", "null") else str(v)`). -/
def fmGetOpt (fm : List (String × YVal)) (key : String) : Option String :=
  match alookup key fm with
  | some (.s v) => if v = "" ∨ v = "null" then none else some v
  | some (.l items) => some (pythonStrOfList items)
  | none => none

/-- The `Task` view of a parsed frontmatter mapping, one field per
dataclass property accessor. -/
def taskOfFm (fm : List (String × YVal)) : Task :=
  { status := pyStripS (fmGetStrDefault fm "status" ""),
    title := pyStripS (fmGetStrDefault fm "title" ""),
    depends_on := fmGetList fm "depends_on",
    owner := fmGetOpt fm "owner",
    task_type := pyStripS (fmGetStrDefault fm "type" "task"),
    parent_epic := fmGetOpt fm "parent_epic",
    children := fmGetList fm "children",
    updated_at := none }

/-- One directory entry of a task partition: the folder name and the
content of its `task.md`, when that file exists. -/
structure FsEntry where
  name : String
  task_md : Option String
deriving DecidableEq

/-- The filesystem state `validate` reads: the active and archived task
folders in sorted order, the board file (absent, or the outcome of its
guarded load+schema check), and the outcome of loading the task schema
document, modelled as its list of required keys. -/
structure Fs where
  taskFolders : List FsEntry := []
  archivedFolders : List FsEntry := []
  boardFile : Option (Except String Unit) := none
  taskSchema : Except String (List String) := .ok []
deriving DecidableEq

/-- A discovered task: its folder name, raw frontmatter mapping and
`Task` view. -/
structure DTask where
  folder : String
  fm : List (String × YVal)
  task : Task
deriving DecidableEq

/-- `discover_tasks`: walk the folder entries in order, skip template
(`_`) and hidden (`.`) folders and folders without a `task.md`, parse
each record — a parse failure propagates as an exception — and key the
result by the frontmatter id, falling back to the folder name. -/
def discover_tasks_go (acc : List (String × DTask)) :
    List FsEntry → Except String (List (String × DTask))
  | [] => .ok acc
  | e :: rest =>
    if strStartsWith e.name "_" ∨ strStartsWith e.name "." then
      discover_tasks_go acc rest
    else
      match e.task_md with
      | none => discover_tasks_go acc rest
      | some raw =>
        match parse_frontmatter raw with
        | .error msg => .error msg
        | .ok (fm, _body) =>
          let tid := pyStripS (fmGetOrName fm "id" e.name)
          let dt : DTask := { folder := e.name, fm := fm, task := taskOfFm fm }
          discover_tasks_go (dict_set acc tid dt) rest

/-- Active-task discovery from an empty accumulator. -/
def discover_tasks_fs (entries : List FsEntry) :
    Except String (List (String × DTask)) :=
  discover_tasks_go [] entries

/-- `discover_archived_tasks`: the same walk over the archive partition,
without the template/hidden skip. -/
def discover_archived_go (acc : List (String × DTask)) :
    List FsEntry → Except String (List (String × DTask))
  | [] => .ok acc
  | e :: rest =>
    match e.task_md with
    | none => discover_archived_go acc rest
    | some raw =>
      match parse_frontmatter raw with
      | .error msg => .error msg
      | .ok (fm, _body) =>
        let tid := pyStripS (fmGetOrName fm "id" e.name)
        let dt : DTask := { folder := e.name, fm := fm, task := taskOfFm fm }
        discover_archived_go (dict_set acc tid dt) rest

/-- Archived-task discovery from an empty accumulator. -/
def discover_archived_fs (entries : List FsEntry) :
    Except String (List (String × DTask)) :=
  discover_archived_go [] entries

/-- The `Task` mapping of a discovered mapping. -/
def dtasksToTasks (l : List (String × DTask)) : List (String × Task) :=
  l.map (fun p => (p.1, p.2.task))

/-- The board-config stage: a missing board file is an error, a load or
schema failure is caught and recorded as an error, a valid board adds
nothing. -/
def boardDiagnostics : Option (Except String Unit) → List Diag
  | none => [Diag.missingBoard]
  | some (.error _) => [Diag.invalidBoard]
  | some (.ok _) => []

/-- The task-schema stage (`task_validator.validate`, wrapped in
try/except): a record missing a required key yields an error
diagnostic.  The external JSON-Schema validator is modelled from the
spec as required-key conformance. -/
def schemaErrors (required : List String) :
    List (String × DTask) → List Diag
  | [] => []
  | (tid, dt) :: rest =>
    (if required.all (fun k => (alookup k dt.fm).isSome) then []
     else [.invalidFrontmatter tid])
      ++ schemaErrors required rest

/-- The folder-name convention stage: a folder name differing from the
frontmatter id is a warning. -/
def folderWarnings : List (String × DTask) → List Diag
  | [] => []
  | (tid, dt) :: rest =>
    (if dt.folder ≠ tid then [.folderMismatch tid dt.folder] else [])
      ++ folderWarnings rest

/-- The full `validate` operation over a filesystem state: discovery of
both partitions (parse failures propagate), the board stage, the task
schema load (a load failure propagates), then every check stage; on the
non-raising paths it returns the complete report. -/
def validate_fs (fs : Fs) : Except String (List Diag × List Diag) :=
  match discover_tasks_fs fs.taskFolders with
  | .error e => .error e
  | .ok tasks =>
    match discover_archived_fs fs.archivedFolders with
    | .error e => .error e
    | .ok archived =>
      match fs.taskSchema with
      | .error e => .error e
      | .ok required =>
        let core := validateCore (dtasksToTasks tasks) (dtasksToTasks archived)
        .ok (boardDiagnostics fs.boardFile ++ schemaErrors required tasks
            ++ core.1,
          folderWarnings tasks ++ core.2)

/-! ## Claim C7: validate totality (corrected) -/

/-- C7 (amended): validate never raises and returns the complete report
— all stages, errors and warnings accumulated — provided every
discovered task record (active and archived) parses as a frontmatter
mapping and the task schema document loads; board-config problems are
always caught and accumulated.  A malformed task record or a failing
task-schema load instead propagates out of validate, as the
counterexample shows. -/
theorem validate_never_raises_given_parses (fs : Fs)
    (ts ar : List (String × DTask)) (req : List String)
    (h1 : discover_tasks_fs fs.taskFolders = .ok ts)
    (h2 : discover_archived_fs fs.archivedFolders = .ok ar)
    (h3 : fs.taskSchema = .ok req) :
    validate_fs fs = .ok
      (boardDiagnostics fs.boardFile ++ schemaErrors req ts
        ++ (validateCore (dtasksToTasks ts) (dtasksToTasks ar)).1,
       folderWarnings ts
        ++ (validateCore (dtasksToTasks ts) (dtasksToTasks ar)).2) := by
  simp only [validate_fs, h1, h2, h3]

/-- A filesystem state holding one task record with no frontmatter. -/
def c7Bad : Fs :=
  { taskFolders := [{ name := "T-0001", task_md := some "no frontmatter" }] }

/-- C7 counterexample: on a state containing a malformed task record,
validate does not return a report at all — the parse failure propagates
out of it — refuting the claim that it never raises on every input
state. -/
theorem validate_raises_counterexample :
    validate_fs c7Bad = .error "missing YAML frontmatter"
  ∧ ¬ ∃ r, validate_fs c7Bad = .ok r := by
  have h : validate_fs c7Bad = .error "missing YAML frontmatter" := by decide
  refine ⟨h, ?_⟩
  rintro ⟨r, hr⟩
  rw [h] at hr
  cases hr

/-- A well-formed filesystem state: one parsing task record, a valid
board, a loading schema. -/
def c7GoodRaw : String := "---\nstatus: todo\n---\n\nhello\n"

/-- The C7 witness filesystem state. -/
def c7Good : Fs :=
  { taskFolders := [{ name := "T-1", task_md := some c7GoodRaw }],
    boardFile := some (.ok ()),
    taskSchema := .ok ["status"] }

/-- What discovery finds in the C7 witness state. -/
def c7GoodTasks : List (String × DTask) :=
  [("T-1", { folder := "T-1", fm := [("status", .s "todo")],
             task := { status := "todo" } })]

/-- C7 witness: on the well-formed state, validate returns a report. -/
theorem validate_never_raises_witness :
    ∃ r, validate_fs c7Good = .ok r := by
  have h1 : discover_tasks_fs c7Good.taskFolders = .ok c7GoodTasks := by
    decide
  have h2 : discover_archived_fs c7Good.archivedFolders = .ok [] := by decide
  have h3 : c7Good.taskSchema = .ok ["status"] := by decide
  exact ⟨_, validate_never_raises_given_parses c7Good c7GoodTasks []
    ["status"] h1 h2 h3⟩

/-! ## String lemmas for the round-trip -/

theorem pyLstrip_cons_nonspace (c : Char) (l : List Char)
    (h : pyIsSpace c = false) : pyLstrip (c :: l) = c :: l := by
  simp [pyLstrip, List.dropWhile_cons, h]

theorem pyRstrip_eq_nil_iff (l : List Char) :
    pyRstrip l = [] ↔ ∀ c ∈ l, pyIsSpace c := by
  unfold pyRstrip
  rw [List.reverse_eq_nil_iff, List.dropWhile_eq_nil_iff]
  constructor
  · intro h c hc
    exact h c (List.mem_reverse.mpr hc)
  · intro h c hc
    exact h c (List.mem_reverse.mp hc)

theorem pyRstrip_append_full (A B : List Char)
    (h : ∀ c ∈ B, pyIsSpace c) : pyRstrip (A ++ B) = pyRstrip A := by
  unfold pyRstrip
  rw [List.reverse_append, List.dropWhile_append]
  have hB : B.reverse.dropWhile pyIsSpace = [] := by
    rw [List.dropWhile_eq_nil_iff]
    intro c hc
    exact h c (List.mem_reverse.mp hc)
  rw [hB]
  simp

theorem pyRstrip_append_keep (A B : List Char)
    (h : pyRstrip B ≠ []) : pyRstrip (A ++ B) = A ++ pyRstrip B := by
  unfold pyRstrip at *
  rw [List.reverse_append, List.dropWhile_append]
  have hB : (B.reverse.dropWhile pyIsSpace).isEmpty = false := by
    cases hx : B.reverse.dropWhile pyIsSpace with
    | nil => rw [hx] at h; simp at h
    | cons a t => simp
  rw [hB]
  simp

theorem pyRstrip_concat_nonspace (A : List Char) (c : Char)
    (h : pyIsSpace c = false) : pyRstrip (A ++ [c]) = A ++ [c] := by
  unfold pyRstrip
  rw [List.reverse_append]
  simp only [List.reverse_cons, List.reverse_nil, List.nil_append,
    List.singleton_append, List.dropWhile_cons, h]
  simp

theorem pyRstrip_prefix (l : List Char) : ∃ suf, pyRstrip l ++ suf = l := by
  obtain ⟨pre, hpre⟩ := List.dropWhile_suffix (l := l.reverse) pyIsSpace
  refine ⟨pre.reverse, ?_⟩
  have h2 := congrArg List.reverse hpre
  rw [List.reverse_append] at h2
  simpa [pyRstrip] using h2

theorem pyLstrip_head_nonspace (l : List Char) (c : Char) (t : List Char)
    (h : pyLstrip l = c :: t) : pyIsSpace c = false := by
  induction l with
  | nil => simp [pyLstrip] at h
  | cons a rest ih =>
    rw [pyLstrip, List.dropWhile_cons] at h
    by_cases ha : pyIsSpace a
    · rw [if_pos ha] at h
      exact ih h
    · rw [if_neg ha] at h
      injection h with h1 _
      rw [← h1]
      exact Bool.not_eq_true _ ▸ (by simpa using ha)

theorem pyStrip_head (l : List Char) (h : pyStrip l ≠ []) :
    ∃ c t, pyStrip l = c :: t ∧ pyIsSpace c = false := by
  unfold pyStrip at *
  cases hl : pyLstrip l with
  | nil => rw [hl] at h; simp [pyRstrip] at h
  | cons c t =>
    rw [hl] at h
    obtain ⟨suf, hsuf⟩ := pyRstrip_prefix (c :: t)
    cases hr : pyRstrip (c :: t) with
    | nil => exact absurd hr h
    | cons c2 t2 =>
      rw [hr] at hsuf
      have hc : c2 = c := by
        have := congrArg List.head? hsuf
        simpa using this
      exact ⟨c2, t2, rfl, hc ▸ pyLstrip_head_nonspace l c t hl⟩

theorem splitLines_no_nl (l : List Char) (h : '\n' ∉ l) :
    splitLines l = [l] := by
  induction l with
  | nil => rfl
  | cons c rest ih =>
    have hc : c ≠ '\n' := fun he => h (he ▸ List.mem_cons_self _ _)
    have hrest : '\n' ∉ rest := fun hm => h (List.mem_cons_of_mem _ hm)
    rw [splitLines]
    simp only [hc, if_false, ih hrest]

theorem splitLines_append_nl (l X : List Char) (h : '\n' ∉ l) :
    splitLines (l ++ '\n' :: X) = l :: splitLines X := by
  induction l with
  | nil =>
    rw [List.nil_append, splitLines]
    simp
  | cons c rest ih =>
    have hc : c ≠ '\n' := fun he => h (he ▸ List.mem_cons_self _ _)
    have hrest : '\n' ∉ rest := fun hm => h (List.mem_cons_of_mem _ hm)
    rw [List.cons_append, splitLines]
    simp only [hc, if_false, ih hrest]

theorem splitLines_joinLines :
    ∀ lines : List (List Char), (∀ ln ∈ lines, '\n' ∉ ln) → lines ≠ [] →
      splitLines (joinLines lines) = lines
  | [], _, hne => absurd rfl hne
  | [l], h, _ => by
    simp only [joinLines]
    exact splitLines_no_nl l (h l (List.mem_cons_self _ _))
  | l :: l2 :: rest, h, _ => by
    simp only [joinLines]
    rw [splitLines_append_nl l _ (h l (List.mem_cons_self _ _))]
    rw [splitLines_joinLines (l2 :: rest)
      (fun ln hln => h ln (List.mem_cons_of_mem _ hln)) (by simp)]

theorem hasNlDashes_no_nl (l : List Char) (h : '\n' ∉ l) :
    hasNlDashes l = false := by
  induction l with
  | nil => rfl
  | cons c rest ih =>
    have hc : c ≠ '\n' := fun he => h (he ▸ List.mem_cons_self _ _)
    have hrest : '\n' ∉ rest := fun hm => h (List.mem_cons_of_mem _ hm)
    rw [hasNlDashes]
    simp [hc, ih hrest]

theorem hasNlDashes_append_no_nl (A X : List Char) (h : '\n' ∉ A) :
    hasNlDashes (A ++ X) = hasNlDashes X := by
  induction A with
  | nil => rfl
  | cons c rest ih =>
    have hc : c ≠ '\n' := fun he => h (he ▸ List.mem_cons_self _ _)
    have hrest : '\n' ∉ rest := fun hm => h (List.mem_cons_of_mem _ hm)
    rw [List.cons_append, hasNlDashes]
    simp [hc, ih hrest]

theorem startsWith3_append_nl_false (ln X : List Char)
    (h : startsWithL ['-', '-', '-'] ln = false) :
    startsWithL ['-', '-', '-'] (ln ++ '\n' :: X) = false := by
  rcases ln with _ | ⟨d1, _ | ⟨d2, _ | ⟨d3, rest⟩⟩⟩
  · simp [startsWithL]
  · by_cases h1 : d1 = '-' <;> simp [startsWithL, h1]
  · by_cases h1 : d1 = '-' <;> by_cases h2 : d2 = '-' <;>
      simp [startsWithL, h1, h2]
  · simpa [startsWithL] using h

theorem hasNlDashes_joinLines :
    ∀ lines : List (List Char),
      (∀ ln ∈ lines, '\n' ∉ ln ∧ startsWithL ['-', '-', '-'] ln = false) →
      hasNlDashes (joinLines lines) = false
  | [], _ => rfl
  | [l], h => by
    simp only [joinLines]
    exact hasNlDashes_no_nl l (h l (List.mem_cons_self _ _)).1
  | l :: l2 :: rest, h => by
    simp only [joinLines]
    rw [hasNlDashes_append_no_nl l _ (h l (List.mem_cons_self _ _)).1,
      hasNlDashes]
    have hrec : hasNlDashes (joinLines (l2 :: rest)) = false :=
      hasNlDashes_joinLines (l2 :: rest)
        (fun ln hln => h ln (List.mem_cons_of_mem _ hln))
    have hl2 := h l2 (List.mem_cons_of_mem _ (List.mem_cons_self _ _))
    have hstart : startsWithL ['-', '-', '-'] (joinLines (l2 :: rest))
        = false := by
      cases rest with
      | nil => simp only [joinLines]; exact hl2.2
      | cons l3 rest2 =>
        simp only [joinLines]
        exact startsWith3_append_nl_false l2 _ hl2.2
    simp [hrec, hstart]

/-! ## Lemmas about the frontmatter regex scan -/

theorem wsNlCandidates_nonspace (c : Char) (rest : List Char)
    (h : pyIsSpace c = false) : wsNlCandidates (c :: rest) = [] := by
  have hc : c ≠ '\n' := by
    intro he
    rw [he] at h
    simp [pyIsSpace] at h
  simp [wsNlCandidates, h, hc]

theorem wsNlCandidates_nl (c : Char) (rest : List Char)
    (h : pyIsSpace c = false) :
    wsNlCandidates ('\n' :: c :: rest) = [c :: rest] := by
  rw [wsNlCandidates]
  rw [wsNlCandidates_nonspace c rest h]
  simp [pyIsSpace]

theorem wsNlCandidates_double_nl (c : Char) (t : List Char)
    (h : pyIsSpace c = false) :
    wsNlCandidates ('\n' :: '\n' :: c :: t) = [c :: t, '\n' :: c :: t] := by
  rw [wsNlCandidates]
  rw [wsNlCandidates_nl c t h]
  simp [pyIsSpace]

theorem wsNlCandidates_single_nl : wsNlCandidates ['\n'] = [[]] := by
  simp [wsNlCandidates, pyIsSpace]

theorem lazyFmEnd_boundary (y : List Char) (tail w : List Char)
    (ws : List (List Char)) (hnd : hasNlDashes y = false)
    (hcand : wsNlCandidates tail = w :: ws) :
    lazyFmEnd (y ++ '\n' :: '-' :: '-' :: '-' :: tail) = some (y, w) := by
  induction y with
  | nil =>
    rw [List.nil_append, lazyFmEnd]
    have hs : startsWithL ['-', '-', '-'] ('-' :: '-' :: '-' :: tail)
        = true := by
      simp [startsWithL]
    rw [if_pos ⟨rfl, hs⟩]
    have hdrop : ('-' :: '-' :: '-' :: tail).drop 3 = tail := rfl
    rw [hdrop, hcand]
  | cons c y2 ih =>
    rw [hasNlDashes] at hnd
    have hnd1 : (decide (c = '\n') && startsWithL ['-', '-', '-'] y2)
        = false := by
      cases hx : (decide (c = '\n') && startsWithL ['-', '-', '-'] y2) with
      | false => rfl
      | true => rw [hx] at hnd; simp at hnd
    have hnd2 : hasNlDashes y2 = false := by
      cases hx : hasNlDashes y2 with
      | false => rfl
      | true => rw [hx] at hnd; simp at hnd
    rw [List.cons_append, lazyFmEnd]
    have hcond : ¬ (c = '\n' ∧ startsWithL ['-', '-', '-']
        (y2 ++ '\n' :: '-' :: '-' :: '-' :: tail) = true) := by
      rintro ⟨he, hsw⟩
      subst he
      have hy2 : startsWithL ['-', '-', '-'] y2 = false := by
        simpa using hnd1
      rw [startsWith3_append_nl_false y2 _ hy2] at hsw
      cases hsw
    rw [if_neg hcond, ih hnd2]
    rfl

theorem fmSplit_framed (c0 : Char) (y2 tail w : List Char)
    (ws : List (List Char)) (hc0 : pyIsSpace c0 = false)
    (hnd : hasNlDashes (c0 :: y2) = false)
    (hcand : wsNlCandidates tail = w :: ws) :
    fmSplit ('-' :: '-' :: '-' :: '\n' ::
        ((c0 :: y2) ++ '\n' :: '-' :: '-' :: '-' :: tail))
      = some (c0 :: y2, w) := by
  have hl := lazyFmEnd_boundary (c0 :: y2) tail w ws hnd hcand
  show firstSome lazyFmEnd (wsNlCandidates ('\n' ::
      ((c0 :: y2) ++ '\n' :: '-' :: '-' :: '-' :: tail))) = some (c0 :: y2, w)
  have he : (c0 :: y2) ++ '\n' :: '-' :: '-' :: '-' :: tail
      = c0 :: (y2 ++ '\n' :: '-' :: '-' :: '-' :: tail) := rfl
  rw [he, wsNlCandidates_nl c0 _ hc0, ← he]
  simp only [firstSome]
  rw [hl]

/-! ## Valid metadata and the YAML round-trip -/

/-- A key the dumper renders plainly: nonempty, no newline or colon,
head not whitespace and not a dash or hash, last not whitespace. -/
def validKeyChars : List Char → Bool
  | [] => false
  | c :: rest =>
    ! pyIsSpace c && c != '-' && c != '#' &&
    (c :: rest).all (fun ch => ch != '\n' && ch != ':') &&
    (match (c :: rest).getLast? with
     | some d => ! pyIsSpace d
     | none => false)

/-- Plain-scalar shape: nonempty, no newline, head and last not
whitespace. -/
def validPlainChars : List Char → Bool
  | [] => false
  | c :: rest =>
    ! pyIsSpace c &&
    (c :: rest).all (fun ch => ch != '\n') &&
    (match (c :: rest).getLast? with
     | some d => ! pyIsSpace d
     | none => false)

/-- A valid key. -/
def validKey (k : String) : Bool := validKeyChars k.data

/-- A valid scalar value (additionally not the literal `[]`). -/
def validScalarVal (v : String) : Bool :=
  validPlainChars v.data && v != "[]"

/-- A valid list item. -/
def validItem (it : String) : Bool := validPlainChars it.data

/-- A valid value of either shape. -/
def validVal : YVal → Bool
  | .s v => validScalarVal v
  | .l items => items.all validItem

/-- A valid metadata mapping: nonempty, every entry valid.  This is the
class of mappings the plain-style dumper round-trips. -/
def validFm (fm : List (String × YVal)) : Bool :=
  ! fm.isEmpty && fm.all (fun kv => validKey kv.1 && validVal kv.2)

theorem validKey_facts (k : String) (h : validKey k = true) :
    ∃ c t, k.data = c :: t ∧ pyIsSpace c = false ∧ c ≠ '-' ∧
      (∀ ch ∈ k.data, ch ≠ '\n' ∧ ch ≠ ':') := by
  unfold validKey validKeyChars at h
  cases hd : k.data with
  | nil => rw [hd] at h; simp at h
  | cons c t =>
    rw [hd] at h
    simp only [Bool.and_eq_true, List.all_eq_true, Bool.not_eq_true',
      bne_iff_ne, ne_eq] at h
    refine ⟨c, t, rfl, h.1.1.1.1, h.1.1.1.2, ?_⟩
    intro ch hch
    exact h.1.2 ch hch

theorem validPlain_facts (l : List Char) (h : validPlainChars l = true) :
    ∃ c t, l = c :: t ∧ pyIsSpace c = false ∧ (∀ ch ∈ l, ch ≠ '\n') := by
  unfold validPlainChars at h
  cases hd : l with
  | nil => rw [hd] at h; simp at h
  | cons c t =>
    rw [hd] at h
    simp only [Bool.and_eq_true, List.all_eq_true, Bool.not_eq_true',
      bne_iff_ne, ne_eq] at h
    exact ⟨c, t, rfl, h.1.1, fun ch hch => h.1.2 ch hch⟩

/-- Whether a line looks like a dumped list item. -/
def itemLine (ln : List Char) : Bool :=
  startsWithL ['-', ' '] ln

theorem findColonSpace_key (k v : List Char) (hk : ':' ∉ k) :
    findColonSpace (k ++ ':' :: ' ' :: v) = some (k, v) := by
  induction k with
  | nil =>
    rw [List.nil_append, findColonSpace]
    rw [if_pos ⟨rfl, rfl⟩]
    rfl
  | cons c k2 ih =>
    have hc : c ≠ ':' := fun he => hk (he ▸ List.mem_cons_self _ _)
    have hk2 : ':' ∉ k2 := fun hm => hk (List.mem_cons_of_mem _ hm)
    rw [List.cons_append, findColonSpace]
    rw [if_neg (by rintro ⟨he, _⟩; exact hc he)]
    rw [ih hk2]
    rfl

theorem findColonSpace_keyColon (k : List Char) (hk : ':' ∉ k) :
    findColonSpace (k ++ [':']) = none := by
  induction k with
  | nil =>
    rw [List.nil_append, findColonSpace]
    rw [if_neg (by rintro ⟨_, h2⟩; simp at h2)]
    rfl
  | cons c k2 ih =>
    have hc : c ≠ ':' := fun he => hk (he ▸ List.mem_cons_self _ _)
    have hk2 : ':' ∉ k2 := fun hm => hk (List.mem_cons_of_mem _ hm)
    rw [List.cons_append, findColonSpace]
    rw [if_neg (by rintro ⟨he, _⟩; exact hc he)]
    rw [ih hk2]
    rfl

theorem takeItems_dump (items : List String) (rest : List (List Char))
    (hrest : ∀ ln, rest.head? = some ln → itemLine ln = false) :
    takeItems (items.map (fun it => '-' :: ' ' :: it.data) ++ rest)
      = (items, rest) := by
  induction items with
  | nil =>
    rw [List.map_nil, List.nil_append]
    cases rest with
    | nil => rfl
    | cons ln r2 =>
      have hln := hrest ln rfl
      rcases ln with _ | ⟨c1, _ | ⟨c2, it⟩⟩
      · simp [takeItems]
      · simp [takeItems]
      · by_cases h1 : c1 = '-'
        · by_cases h2 : c2 = ' '
          · subst h1
            subst h2
            simp [itemLine, startsWithL] at hln
          · simp [takeItems, h2]
        · simp [takeItems, h1]
  | cons it items2 ih =>
    rw [List.map_cons, List.cons_append, takeItems]
    rw [ih]

theorem dumpLines_head_not_item (fm : List (String × YVal))
    (h : fm.all (fun kv => validKey kv.1 && validVal kv.2) = true) :
    ∀ ln, (dumpLines fm).head? = some ln → itemLine ln = false := by
  intro ln hln
  cases fm with
  | nil => simp [dumpLines] at hln
  | cons kv rest =>
    obtain ⟨k, val⟩ := kv
    rw [List.all_cons, Bool.and_eq_true, Bool.and_eq_true] at h
    obtain ⟨c, t, hkd, _, hcd, _⟩ := validKey_facts k h.1.1
    have hne : ¬ ('-' = c) := fun he => hcd he.symm
    cases val with
    | s v =>
      rw [show dumpLines ((k, .s v) :: rest)
          = (k.data ++ ':' :: ' ' :: v.data) :: dumpLines rest from rfl] at hln
      rw [List.head?_cons, Option.some.injEq] at hln
      rw [← hln, hkd, List.cons_append]
      simp [itemLine, startsWithL, hne]
    | l items =>
      cases items with
      | nil =>
        rw [show dumpLines ((k, .l []) :: rest)
            = (k.data ++ [':', ' ', '[', ']']) :: dumpLines rest from rfl]
          at hln
        rw [List.head?_cons, Option.some.injEq] at hln
        rw [← hln, hkd, List.cons_append]
        simp [itemLine, startsWithL, hne]
      | cons it its =>
        rw [show dumpLines ((k, .l (it :: its)) :: rest)
            = (k.data ++ [':']) ::
              ((it :: its).map (fun x => '-' :: ' ' :: x.data)
                ++ dumpLines rest) from rfl] at hln
        rw [List.head?_cons, Option.some.injEq] at hln
        rw [← hln, hkd, List.cons_append]
        simp [itemLine, startsWithL, hne]

theorem string_ne_of_data_ne (a b : String) (h : a ≠ b) : a.data ≠ b.data := by
  intro hd
  apply h
  cases a
  cases b
  cases hd
  rfl

theorem parseLinesF_dump (fm : List (String × YVal))
    (h : fm.all (fun kv => validKey kv.1 && validVal kv.2) = true) :
    ∀ fuel, (dumpLines fm).length ≤ fuel →
      parseLinesF fuel (dumpLines fm) = some fm := by
  induction fm with
  | nil =>
    intro fuel _
    rw [show dumpLines [] = [] from rfl]
    cases fuel <;> rfl
  | cons kv rest ih =>
    obtain ⟨k, val⟩ := kv
    rw [List.all_cons, Bool.and_eq_true, Bool.and_eq_true] at h
    have hkv := h.1
    have ihr := ih h.2
    obtain ⟨c, t, hkd, hcsp, hcd, hkchars⟩ := validKey_facts k hkv.1
    have hkcolon : ':' ∉ k.data := fun hm => (hkchars ':' hm).2 rfl
    intro fuel hfuel
    cases val with
    | s v =>
      rw [show dumpLines ((k, .s v) :: rest)
          = (k.data ++ ':' :: ' ' :: v.data) :: dumpLines rest from rfl]
      rw [show dumpLines ((k, .s v) :: rest)
          = (k.data ++ ':' :: ' ' :: v.data) :: dumpLines rest from rfl]
        at hfuel
      cases fuel with
      | zero => simp at hfuel
      | succ f =>
        have hvdata : v.data ≠ ['[', ']'] := by
          have hsv : (validPlainChars v.data && v != "[]") = true := hkv.2
          rw [Bool.and_eq_true] at hsv
          have hne := hsv.2
          rw [bne_iff_ne] at hne
          exact string_ne_of_data_ne v "[]" hne
        rw [parseLinesF]
        simp only [findColonSpace_key _ _ hkcolon]
        rw [if_neg hvdata]
        rw [ihr f (by rw [List.length_cons] at hfuel; omega)]
        rfl
    | l items =>
      cases items with
      | nil =>
        rw [show dumpLines ((k, .l []) :: rest)
            = (k.data ++ ':' :: ' ' :: ['[', ']']) :: dumpLines rest from rfl]
        rw [show dumpLines ((k, .l []) :: rest)
            = (k.data ++ [':', ' ', '[', ']']) :: dumpLines rest from rfl]
          at hfuel
        cases fuel with
        | zero => simp at hfuel
        | succ f =>
          rw [parseLinesF]
          simp only [findColonSpace_key _ _ hkcolon]
          rw [if_pos trivial]
          rw [ihr f (by rw [List.length_cons] at hfuel; omega)]
          rfl
      | cons it its =>
        rw [show dumpLines ((k, .l (it :: its)) :: rest)
            = (k.data ++ [':']) ::
              ((it :: its).map (fun x => '-' :: ' ' :: x.data)
                ++ dumpLines rest) from rfl]
        rw [show dumpLines ((k, .l (it :: its)) :: rest)
            = (k.data ++ [':']) ::
              ((it :: its).map (fun x => '-' :: ' ' :: x.data)
                ++ dumpLines rest) from rfl]
          at hfuel
        cases fuel with
        | zero => simp at hfuel
        | succ f =>
          have htake := takeItems_dump (it :: its) (dumpLines rest)
            (dumpLines_head_not_item rest h.2)
          rw [parseLinesF]
          simp only [findColonSpace_keyColon _ hkcolon, List.getLast?_concat]
          simp only [htake, List.dropLast_concat]
          have hflen : (dumpLines rest).length ≤ f := by
            rw [List.length_cons, List.length_append, List.length_map]
              at hfuel
            omega
          rw [ihr f hflen]
          rfl

theorem dumpLines_ne_nil (fm : List (String × YVal)) (h : fm ≠ []) :
    dumpLines fm ≠ [] := by
  cases fm with
  | nil => exact absurd rfl h
  | cons kv rest =>
    obtain ⟨k, val⟩ := kv
    cases val with
    | s v => simp [dumpLines, dumpKV]
    | l items => cases items <;> simp [dumpLines, dumpKV]

theorem joinLines_cons_shape (ln : List Char) (rest : List (List Char)) :
    ∃ R, joinLines (ln :: rest) = ln ++ R := by
  cases rest with
  | nil => exact ⟨[], by simp [joinLines]⟩
  | cons l2 rest2 => exact ⟨'\n' :: joinLines (l2 :: rest2), rfl⟩

theorem dumpLines_safe (fm : List (String × YVal))
    (h : fm.all (fun kv => validKey kv.1 && validVal kv.2) = true) :
    ∀ ln ∈ dumpLines fm, '\n' ∉ ln ∧
      startsWithL ['-', '-', '-'] ln = false ∧
      ∃ c s, ln = c :: s ∧ pyIsSpace c = false := by
  induction fm with
  | nil => intro ln hln; simp [dumpLines] at hln
  | cons kv rest ih =>
    obtain ⟨k, val⟩ := kv
    rw [List.all_cons, Bool.and_eq_true, Bool.and_eq_true] at h
    intro ln hln
    rw [show dumpLines ((k, val) :: rest)
        = dumpKV (k, val) ++ dumpLines rest from rfl] at hln
    rw [List.mem_append] at hln
    rcases hln with hln | hln
    · obtain ⟨c, t, hkd, hcsp, hcd, hkchars⟩ := validKey_facts k h.1.1
      have hne : ¬ ('-' = c) := fun he => hcd he.symm
      cases val with
      | s v =>
        obtain ⟨cv, tv, hvd, hvsp, hvchars⟩ := by
          have hsv : (validPlainChars v.data && v != "[]") = true := h.1.2
          rw [Bool.and_eq_true] at hsv
          exact validPlain_facts v.data hsv.1
        rw [show dumpKV (k, .s v)
            = [k.data ++ ':' :: ' ' :: v.data] from rfl] at hln
        rw [List.mem_singleton] at hln
        subst hln
        refine ⟨?_, ?_, ?_⟩
        · intro hmem
          rw [List.mem_append] at hmem
          rcases hmem with hmem | hmem
          · exact (hkchars '\n' hmem).1 rfl
          · simp only [List.mem_cons] at hmem
            rcases hmem with hmem | hmem | hmem
            · exact absurd hmem (by decide)
            · exact absurd hmem (by decide)
            · exact hvchars '\n' hmem rfl
        · rw [hkd, List.cons_append]
          simp [startsWithL, hne]
        · exact ⟨c, t ++ ':' :: ' ' :: v.data, by rw [hkd]; rfl, hcsp⟩
      | l items =>
        cases items with
        | nil =>
          rw [show dumpKV (k, .l [])
              = [k.data ++ [':', ' ', '[', ']']] from rfl] at hln
          rw [List.mem_singleton] at hln
          subst hln
          refine ⟨?_, ?_, ?_⟩
          · intro hmem
            rw [List.mem_append] at hmem
            rcases hmem with hmem | hmem
            · exact (hkchars '\n' hmem).1 rfl
            · simp at hmem
          · rw [hkd, List.cons_append]
            simp [startsWithL, hne]
          · exact ⟨c, t ++ [':', ' ', '[', ']'], by rw [hkd]; rfl, hcsp⟩
        | cons it its =>
          have hitems : ∀ x ∈ it :: its, validPlainChars x.data = true := by
            intro x hx
            have := h.1.2
            rw [show validVal (k, YVal.l (it :: its)).2
                = (it :: its).all validItem from rfl, List.all_eq_true]
              at this
            exact this x hx
          rw [show dumpKV (k, .l (it :: its))
              = (k.data ++ [':']) ::
                (it :: its).map (fun x => '-' :: ' ' :: x.data) from rfl]
            at hln
          rw [List.mem_cons] at hln
          rcases hln with hln | hln
          · subst hln
            refine ⟨?_, ?_, ?_⟩
            · intro hmem
              rw [List.mem_append] at hmem
              rcases hmem with hmem | hmem
              · exact (hkchars '\n' hmem).1 rfl
              · simp at hmem
            · rw [hkd, List.cons_append]
              simp [startsWithL, hne]
            · exact ⟨c, t ++ [':'], by rw [hkd]; rfl, hcsp⟩
          · rw [List.mem_map] at hln
            obtain ⟨x, hx, hxe⟩ := hln
            obtain ⟨cx, tx, hxd, _, hxchars⟩ :=
              validPlain_facts x.data (hitems x hx)
            subst hxe
            refine ⟨?_, ?_, ?_⟩
            · intro hmem
              simp only [List.mem_cons] at hmem
              rcases hmem with hmem | hmem | hmem
              · exact absurd hmem (by decide)
              · exact absurd hmem (by decide)
              · exact hxchars '\n' hmem rfl
            · simp [startsWithL]
            · exact ⟨'-', ' ' :: x.data, rfl, by decide⟩
    · exact ih h.2 ln hln

theorem pyStrip_cons_nonspace_ne_nil (c : Char) (s : List Char)
    (hc : pyIsSpace c = false) : pyStrip (c :: s) ≠ [] := by
  rw [pyStrip, pyLstrip_cons_nonspace c s hc]
  rw [Ne, pyRstrip_eq_nil_iff]
  intro hall
  have h2 := hall c (List.mem_cons_self _ _)
  rw [hc] at h2
  exact absurd h2 (by simp)

theorem yaml_safe_load_dump (fm : List (String × YVal))
    (hfm : validFm fm = true) :
    yaml_safe_load (dump_yaml_str fm) = some (.map fm) := by
  rw [validFm, Bool.and_eq_true] at hfm
  have hne : fm ≠ [] := by
    intro he
    rw [he] at hfm
    simp at hfm
  have hall := hfm.2
  have hsafe := dumpLines_safe fm hall
  have hnn : dumpLines fm ≠ [] := dumpLines_ne_nil fm hne
  have hsplit : splitLines (dump_yaml_str fm) = dumpLines fm := by
    rw [dump_yaml_str]
    exact splitLines_joinLines _ (fun ln hln => (hsafe ln hln).1) hnn
  have hfilter : (splitLines (dump_yaml_str fm)).filter
      (fun ln => ! (pyStrip ln).isEmpty) = dumpLines fm := by
    rw [hsplit, List.filter_eq_self]
    intro ln hln
    obtain ⟨-, -, c, s, hlc, hc⟩ := hsafe ln hln
    rw [hlc]
    have hns := pyStrip_cons_nonspace_ne_nil c s hc
    simp [hns]
  have hie : (dumpLines fm).isEmpty = false := by
    cases hd : dumpLines fm with
    | nil => exact absurd hd hnn
    | cons a b => rfl
  rw [yaml_safe_load]
  simp only [hfilter, hie, Bool.false_eq_true, if_false]
  rw [show parseLines (dumpLines fm) = some fm from
    parseLinesF_dump fm hall _ le_rfl]

/-- The body as the round trip reproduces it: stripped (on both sides)
with exactly one trailing newline, or empty when the body was blank. -/
def body_norm (body : String) : String :=
  if pyStrip body.data = [] then ""
  else String.mk (pyStrip body.data ++ ['\n'])

/-- C9: for every valid metadata mapping and every body, parsing the
saved record (rendered then written with the right-strip-plus-newline
file writer) reproduces the metadata mapping exactly; the body, however,
comes back stripped of BOTH leading and trailing whitespace with one
trailing newline appended (and comes back empty when it was all
whitespace), because the renderer left-strips the body and the writer
right-strips the file — a stronger normalization than the claimed
trailing-whitespace-only one. -/
theorem parse_serialize_roundtrip (fm : List (String × YVal)) (body : String)
    (hfm : validFm fm = true) :
    parse_frontmatter (saved_task fm body) = .ok (fm, body_norm body) := by
  have hfm2 := hfm
  rw [validFm, Bool.and_eq_true] at hfm2
  have hne : fm ≠ [] := by
    intro he
    rw [he] at hfm2
    simp at hfm2
  have hall := hfm2.2
  have hsafe := dumpLines_safe fm hall
  have hnn : dumpLines fm ≠ [] := dumpLines_ne_nil fm hne
  obtain ⟨ln0, rest0, hd0⟩ : ∃ ln0 rest0, dumpLines fm = ln0 :: rest0 := by
    cases hd : dumpLines fm with
    | nil => exact absurd hd hnn
    | cons a b => exact ⟨a, b, rfl⟩
  obtain ⟨hn0, hs0, c0, s0, hln0, hc0⟩ :=
    hsafe ln0 (hd0 ▸ List.mem_cons_self _ _)
  obtain ⟨R, hR⟩ := joinLines_cons_shape ln0 rest0
  have hy : dump_yaml_str fm = c0 :: (s0 ++ R) := by
    rw [dump_yaml_str, hd0, hR, hln0, List.cons_append]
  have hnd : hasNlDashes (dump_yaml_str fm) = false := by
    rw [dump_yaml_str]
    exact hasNlDashes_joinLines _
      (fun ln hln => ⟨(hsafe ln hln).1, (hsafe ln hln).2.1⟩)
  have hndc : hasNlDashes (c0 :: (s0 ++ R)) = false := hy ▸ hnd
  by_cases hb : pyStrip body.data = []
  · have hallsp : ∀ c ∈ pyLstrip body.data, pyIsSpace c :=
      (pyRstrip_eq_nil_iff _).mp hb
    have hB : ∀ c ∈ '\n' :: '\n' :: pyLstrip body.data, pyIsSpace c := by
      intro c hc
      rw [List.mem_cons, List.mem_cons] at hc
      rcases hc with hc | hc | hc
      · rw [hc]; decide
      · rw [hc]; decide
      · exact hallsp c hc
    have hsaved : (saved_task fm body).data
        = '-' :: '-' :: '-' :: '\n' ::
          ((dump_yaml_str fm) ++ '\n' :: '-' :: '-' :: '-' :: ['\n']) := by
      show pyRstrip ((('-' :: '-' :: '-' :: '\n' :: dump_yaml_str fm)
          ++ '\n' :: '-' :: '-' :: '-' :: '\n' :: '\n'
            :: pyLstrip body.data)) ++ ['\n'] = _
      have hgrp : (('-' :: '-' :: '-' :: '\n' :: dump_yaml_str fm)
          ++ '\n' :: '-' :: '-' :: '-' :: '\n' :: '\n'
            :: pyLstrip body.data)
          = (('-' :: '-' :: '-' :: '\n' :: dump_yaml_str fm)
              ++ ['\n', '-', '-', '-'])
            ++ ('\n' :: '\n' :: pyLstrip body.data) := by
        simp [List.append_assoc]
      rw [hgrp, pyRstrip_append_full _ _ hB]
      have hgrp2 : (('-' :: '-' :: '-' :: '\n' :: dump_yaml_str fm)
          ++ ['\n', '-', '-', '-'])
          = (('-' :: '-' :: '-' :: '\n' :: dump_yaml_str fm)
              ++ ['\n', '-', '-']) ++ ['-'] := by
        simp [List.append_assoc]
      rw [hgrp2, pyRstrip_concat_nonspace _ '-' (by decide)]
      simp [List.append_assoc]
    have hfms : fmSplit (saved_task fm body).data
        = some (dump_yaml_str fm, []) := by
      rw [hsaved, hy]
      exact fmSplit_framed c0 (s0 ++ R) ['\n'] [] [] hc0 hndc
        wsNlCandidates_single_nl
    rw [parse_frontmatter]
    simp only [hfms, yaml_safe_load_dump fm hfm]
    rw [body_norm, if_pos hb]
  · have hkeep : pyRstrip (pyLstrip body.data) ≠ [] := hb
    obtain ⟨cb, bt, hbs, hcb⟩ := pyStrip_head body.data hb
    have hsaved : (saved_task fm body).data
        = '-' :: '-' :: '-' :: '\n' ::
          ((dump_yaml_str fm) ++ '\n' :: '-' :: '-' :: '-' ::
            ('\n' :: '\n' :: (pyStrip body.data ++ ['\n']))) := by
      show pyRstrip ((('-' :: '-' :: '-' :: '\n' :: dump_yaml_str fm)
          ++ '\n' :: '-' :: '-' :: '-' :: '\n' :: '\n'
            :: pyLstrip body.data)) ++ ['\n'] = _
      have hgrp : (('-' :: '-' :: '-' :: '\n' :: dump_yaml_str fm)
          ++ '\n' :: '-' :: '-' :: '-' :: '\n' :: '\n'
            :: pyLstrip body.data)
          = (('-' :: '-' :: '-' :: '\n' :: dump_yaml_str fm)
              ++ ['\n', '-', '-', '-', '\n', '\n'])
            ++ pyLstrip body.data := by
        simp [List.append_assoc]
      rw [hgrp, pyRstrip_append_keep _ _ hkeep]
      simp [List.append_assoc, pyStrip]
    have hcand : wsNlCandidates
        ('\n' :: '\n' :: (pyStrip body.data ++ ['\n']))
        = (pyStrip body.data ++ ['\n'])
          :: ('\n' :: (pyStrip body.data ++ ['\n'])) :: [] := by
      rw [hbs, List.cons_append]
      exact wsNlCandidates_double_nl cb (bt ++ ['\n']) hcb
    have hfms : fmSplit (saved_task fm body).data
        = some (dump_yaml_str fm, pyStrip body.data ++ ['\n']) := by
      rw [hsaved, hy]
      exact fmSplit_framed c0 (s0 ++ R) _ _ _ hc0 hndc hcand
    rw [parse_frontmatter]
    simp only [hfms, yaml_safe_load_dump fm hfm]
    rw [body_norm, if_neg hb]

/-- A body with leading whitespace is not reproduced modulo
trailing-whitespace normalization only: the leading space of the body
is gone in the parsed result. -/
theorem parse_serialize_counterexample :
    parse_frontmatter (saved_task [("id", YVal.s "T-1")] " x")
      = .ok ([("id", YVal.s "T-1")], "x\n") ∧
    ("x\n" : String) ≠ String.mk (pyRstrip (" x" : String).data ++ ['\n'])
    := by
  decide

/-- The round trip at a concrete valid mapping and body. -/
theorem parse_serialize_roundtrip_witness :
    validFm [("status", YVal.s "todo")] = true ∧
    parse_frontmatter (saved_task [("status", YVal.s "todo")] "hello world")
      = .ok ([("status", YVal.s "todo")], body_norm "hello world") :=
  ⟨by decide, parse_serialize_roundtrip _ _ (by decide)⟩
